import Mathlib

/-!
# Producer/consumer factory buffer (`ProducerConsumer.cpp`)

A shallow embedding of the buffer-touching code of `ProducerConsumer.cpp`:

* the constant tables and the shared `buffer`;
* the order generators `generateCombination` and `generatePickupOrder`;
* the critical section of `partWorker`: split of the load order, commit, the
  predicate passed to `wait_until`, and `moveUnloadedPartsToLoad`;
* the critical section of `productWorker`: split of the pickup order, commit
  to the cart, the predicate passed to `wait_until`, and `moveLocalToPickup`.

Conventions.

* A `vector<int>` is a `List Int`; `v[i]` is `idx v i` and `v[i] = x` is
  `v.set i x`.  The C++ `int` is modelled by the unbounded `Int`: every
  quantity handled by the program is bounded by small constants.
* `for (int i = 0; i < n; i++) body` is `forLoop n body`, a left fold of the
  body over `0, 1, ..., n-1`.
* Variables captured by reference by the lambdas are fields of the state
  record the lambda transforms.
* `rand()` is a stream `Nat → Nat` (the value returned by the k-th call);
  the draws of `std::uniform_int_distribution` are a function of the loop
  index.
* Sleeping, logging and the wall-clock extension of `endTime` do not touch
  the vectors and are left out; `notify_one` is counted in `notifyCount`.
-/

namespace ProducerConsumer

/-! ## Constants (lines 15-22) -/

def productionTimes : List Int := [50, 50, 60, 60, 70]
def bufferCapacities : List Int := [5, 5, 4, 3, 3]
def moveTimes : List Int := [20, 20, 30, 30, 40]
def assemblyTimes : List Int := [60, 60, 70, 70, 80]
def numPartTypes : Nat := 5
def MaxTimePart : Int := 1800
def MaxTimeProduct : Int := 8000

/-- Element access `v[i]` on a `vector<int>`. -/
def idx (v : List Int) (i : Nat) : Int := v.getD i 0

/-- The loop `for (int i = 0; i < n; i++) body(i)`. -/
def forLoop {σ : Type} (n : Nat) (body : Nat → σ → σ) (s : σ) : σ :=
  (List.range n).foldl (fun acc i => body i acc) s

/-- A vector of `numPartTypes` entries, each within `0 .. bufferCapacities[t]`. -/
def InBounds (buffer : List Int) : Prop :=
  buffer.length = numPartTypes ∧
    ∀ t, t < numPartTypes → 0 ≤ idx buffer t ∧ idx buffer t ≤ idx bufferCapacities t

/-- A vector of `numPartTypes` non-negative entries. -/
def NonNegVec (v : List Int) : Prop :=
  v.length = numPartTypes ∧ ∀ t, t < numPartTypes → 0 ≤ idx v t

instance (buffer : List Int) : Decidable (InBounds buffer) := by
  unfold InBounds
  infer_instance

instance (v : List Int) : Decidable (NonNegVec v) := by
  unfold NonNegVec
  infer_instance

/-- The vector `vector<int>(numPartTypes, 0)`. -/
def zeroVec : List Int := List.replicate numPartTypes 0

/-! ## Part worker (lines 105-307) -/

/-- The shared buffer together with the variables of one `partWorker`. -/
structure PartState where
  buffer : List Int
  loadOrder : List Int
  unloadedParts : List Int
  canLoad : Bool
  moveTime : Int
  waitMoveTime : Int
  allTypesMoved : Bool
  notifyCount : Nat
  transferTime : Int
deriving DecidableEq, Repr

/-- Body of the loop of lines 160-166. -/
def partSplitStep (i : Nat) (s : PartState) : PartState :=
  if idx s.buffer i + idx s.loadOrder i + idx s.unloadedParts i > idx bufferCapacities i then
    { s with
      unloadedParts := s.unloadedParts.set i
        (idx s.loadOrder i + idx s.unloadedParts i - (idx bufferCapacities i - idx s.buffer i))
      loadOrder := s.loadOrder.set i (idx bufferCapacities i - idx s.buffer i)
      canLoad := false }
  else s

/-- Body of the loop of lines 170-172. -/
def partMoveTimeStep (i : Nat) (s : PartState) : PartState :=
  { s with moveTime := s.moveTime + idx moveTimes i * idx s.loadOrder i }

/-- Body of the loop of lines 178-180. -/
def partCommitStep (i : Nat) (s : PartState) : PartState :=
  { s with buffer := s.buffer.set i (idx s.buffer i + idx s.loadOrder i) }

/-- Lines 131-180 of `partWorker`: split the load order against the buffer,
compute the move time, transfer the accepted portion to the buffer. -/
def partEntry (s : PartState) : PartState :=
  let s1 := forLoop numPartTypes partSplitStep { s with canLoad := true }
  let s2 := forLoop numPartTypes partMoveTimeStep { s1 with moveTime := 0 }
  forLoop numPartTypes partCommitStep s2

/-- Body of the loop of lines 229-247 (the predicate of `wait_until`). -/
def partWaitStep (i : Nat) (s : PartState) : PartState :=
  if idx s.unloadedParts i ≠ 0 ∧
      idx s.buffer i + idx s.unloadedParts i ≤ idx bufferCapacities i then
    { s with
      buffer := s.buffer.set i (idx s.buffer i + idx s.unloadedParts i)
      waitMoveTime := s.waitMoveTime + (idx moveTimes i + idx s.unloadedParts i)
      unloadedParts := s.unloadedParts.set i 0 }
  else { s with allTypesMoved := false }

/-- One evaluation of the predicate of lines 226-251; its return value is the
field `allTypesMoved` of the result. -/
def partWaitPredicate (s : PartState) : PartState :=
  let s1 := forLoop numPartTypes partWaitStep { s with allTypesMoved := true }
  if s1.allTypesMoved then { s1 with notifyCount := s1.notifyCount + 1 } else s1

/-- Body of the loop of lines 211-217. -/
def moveUnloadedStep (i : Nat) (s : PartState) : PartState :=
  if idx s.unloadedParts i > 0 then
    { s with
      loadOrder := s.loadOrder.set i (idx s.loadOrder i + idx s.unloadedParts i)
      transferTime := s.transferTime + (idx moveTimes i + idx s.unloadedParts i)
      unloadedParts := s.unloadedParts.set i 0 }
  else s

/-- The lambda `moveUnloadedPartsToLoad` of lines 208-219. -/
def moveUnloadedPartsToLoad (s : PartState) : PartState :=
  forLoop numPartTypes moveUnloadedStep
    { s with transferTime := 0, loadOrder := List.replicate numPartTypes 0 }

/-! ## Product worker (lines 312-568) -/

/-- The shared buffer together with the variables of one `productWorker`. -/
structure ProductState where
  buffer : List Int
  pickupOrder : List Int
  cartState : List Int
  localState : List Int
  canLoad : Bool
  moveTime : Int
  waitMoveTime : Int
  allTypesMoved : Bool
  notifyCount : Nat
  transferTime : Int
deriving DecidableEq, Repr

/-- Body of the loop of lines 362-368. -/
def productSplitStep (i : Nat) (s : ProductState) : ProductState :=
  if idx s.buffer i < idx s.pickupOrder i then
    { s with
      localState := s.localState.set i (idx s.pickupOrder i - idx s.buffer i)
      pickupOrder := s.pickupOrder.set i (idx s.buffer i)
      canLoad := false }
  else s

/-- Body of the loop of lines 372-374. -/
def productMoveTimeStep (i : Nat) (s : ProductState) : ProductState :=
  { s with moveTime := s.moveTime + idx moveTimes i * idx s.pickupOrder i }

/-- Body of the loop of lines 380-382. -/
def productCommitStep (i : Nat) (s : ProductState) : ProductState :=
  { s with cartState := s.cartState.set i (idx s.cartState i + idx s.pickupOrder i) }

/-- Lines 328-382 of `productWorker`: split the pickup order against the
buffer, compute the move time, transfer the accepted portion to the cart. -/
def productEntry (s : ProductState) : ProductState :=
  let s1 := forLoop numPartTypes productSplitStep { s with canLoad := true }
  let s2 := forLoop numPartTypes productMoveTimeStep { s1 with moveTime := 0 }
  forLoop numPartTypes productCommitStep s2

/-- Body of the loop of lines 439-465 (the predicate of `wait_until`). -/
def productWaitStep (i : Nat) (s : ProductState) : ProductState :=
  if idx s.localState i ≠ 0 ∧ idx s.buffer i ≠ 0 then
    if idx s.buffer i ≥ idx s.localState i then
      { s with
        buffer := s.buffer.set i (idx s.buffer i - idx s.localState i)
        cartState := s.cartState.set i (idx s.cartState i + idx s.localState i)
        waitMoveTime := s.waitMoveTime + (idx moveTimes i + idx s.localState i)
        localState := s.localState.set i 0 }
    else
      { s with
        cartState := s.cartState.set i (idx s.cartState i + idx s.buffer i)
        localState := s.localState.set i (idx s.localState i - idx s.buffer i)
        waitMoveTime := s.waitMoveTime + (idx moveTimes i + idx s.buffer i)
        buffer := s.buffer.set i 0
        allTypesMoved := false }
  else { s with allTypesMoved := false }

/-- One evaluation of the predicate of lines 436-469; its return value is the
field `allTypesMoved` of the result. -/
def productWaitPredicate (s : ProductState) : ProductState :=
  let s1 := forLoop numPartTypes productWaitStep { s with allTypesMoved := true }
  if s1.allTypesMoved then { s1 with notifyCount := s1.notifyCount + 1 } else s1

/-- Body of the loop of lines 421-427. -/
def moveLocalStep (i : Nat) (s : ProductState) : ProductState :=
  if idx s.localState i > 0 then
    { s with
      pickupOrder := s.pickupOrder.set i (idx s.pickupOrder i + idx s.localState i)
      transferTime := s.transferTime + (idx moveTimes i + idx s.localState i)
      localState := s.localState.set i 0 }
  else s

/-- The lambda `moveLocalToPickup` of lines 418-429. -/
def moveLocalToPickup (s : ProductState) : ProductState :=
  forLoop numPartTypes moveLocalStep
    { s with transferTime := 0, pickupOrder := List.replicate numPartTypes 0 }

/-! ## Order generators (lines 35-93) -/

/-- Variables of the loop of `generateCombination`. -/
structure CombinationState where
  combination : List Int
  remainingSum : Int
deriving DecidableEq, Repr

/-- Body of the loop of lines 44-59; `draw i` is the value `distribution(gen)`
returns in iteration `i`, a number in `0 .. bufferCapacities[i]`. -/
def generateCombinationStep (draw : Nat → Int) (i : Nat) (s : CombinationState) :
    CombinationState :=
  if s.remainingSum > 0 then
    let randomValue := min (draw i) s.remainingSum
    { combination := s.combination.set i (idx s.combination i + randomValue)
      remainingSum := s.remainingSum - randomValue }
  else s

/-- The function `generateCombination` of lines 36-60. -/
def generateCombination (draw : Nat → Int) (combination : List Int) : List Int :=
  (forLoop 5 (generateCombinationStep draw)
    { combination := combination, remainingSum := 5 - combination.sum }).combination

/-- Variables of the counting loop of `generatePickupOrder`. -/
structure PickupCount where
  sum : Int
  numNonZeroFromLocal : Int
deriving DecidableEq, Repr

/-- Body of the loop of lines 70-75. -/
def pickupCountStep (pickupOrder : List Int) (i : Nat) (c : PickupCount) : PickupCount :=
  if idx pickupOrder i ≠ 0 then
    { sum := c.sum + idx pickupOrder i, numNonZeroFromLocal := c.numNonZeroFromLocal + 1 }
  else c

/-- Variables of the `while` loop of `generatePickupOrder`; `calls` is the
number of calls of `rand()` made so far. -/
structure PickupFill where
  pickupOrder : List Int
  i : Int
  remainingSpace : Int
  remainingElements : Int
  calls : Nat
deriving DecidableEq, Repr

/-- The write `v[i] = x` with an `int` index: `none` when `i` is not an index
of `v` (an out-of-range access of the vector). -/
def writeAt (v : List Int) (i : Int) (x : Int) : Option (List Int) :=
  if 0 ≤ i ∧ i < v.length then some (v.set i.toNat x) else none

/-- The `while` loop of lines 81-86, run for at most `fuel` iterations: `none`
when an access is out of range or the loop is still running when the fuel is
spent. -/
def pickupFill (rand : Nat → Nat) : Nat → PickupFill → Option PickupFill
  | 0, s => if s.remainingSpace > 0 ∧ s.remainingElements > 0 then none else some s
  | fuel + 1, s =>
    if s.remainingSpace > 0 ∧ s.remainingElements > 0 then
      let randomValue := min s.remainingSpace (1 + (rand s.calls : Int) % s.remainingSpace)
      match writeAt s.pickupOrder s.i randomValue with
      | none => none
      | some v =>
        pickupFill rand fuel
          { pickupOrder := v
            i := s.i + 1
            remainingSpace := s.remainingSpace - randomValue
            remainingElements := s.remainingElements - 1
            calls := s.calls + 1 }
    else some s

/-- The function `generatePickupOrder` of lines 62-93; `rand k` is the value
of the k-th call of `rand()`.  Each iteration of the `while` loop decrements
`remainingElements`, so `remainingElements` iterations of fuel are enough. -/
def generatePickupOrder (rand : Nat → Nat) (pickupOrder : List Int) : Option (List Int) :=
  let maxNonZeroElements : Int := 2 + (rand 0 : Int) % 2
  let c := forLoop numPartTypes (pickupCountStep pickupOrder) { sum := 0, numNonZeroFromLocal := 0 }
  let remainingElements := maxNonZeroElements - c.numNonZeroFromLocal
  let remainingSpace := 5 - c.sum
  match pickupFill rand remainingElements.toNat
      { pickupOrder := pickupOrder
        i := c.numNonZeroFromLocal
        remainingSpace := remainingSpace
        remainingElements := remainingElements
        calls := 1 } with
  | none => none
  | some s =>
    let currentSum := s.pickupOrder.sum
    if currentSum ≠ 5 then
      writeAt s.pickupOrder (maxNonZeroElements - 1)
        (idx s.pickupOrder (maxNonZeroElements - 1).toNat + (5 - currentSum))
    else some s.pickupOrder

/-- Number of non-zero entries of a vector. -/
def countNonZero (v : List Int) : Nat := (v.filter (fun x => x ≠ 0)).length

/-! ## The workers running against one shared buffer -/

/-- The vectors owned by one part worker. -/
structure PartLocal where
  loadOrder : List Int
  unloadedParts : List Int
deriving DecidableEq, Repr

/-- The vectors owned by one product worker. -/
structure ProductLocal where
  pickupOrder : List Int
  cartState : List Int
  localState : List Int
deriving DecidableEq, Repr

/-- The shared buffer and the vectors of every worker thread. -/
structure System where
  buffer : List Int
  partWorkers : List PartLocal
  productWorkers : List ProductLocal
deriving DecidableEq, Repr

/-- The state at the start of `main`: `m` part workers and `n` product workers,
every vector `vector<int>(numPartTypes, 0)`. -/
def System.start (m n : Nat) : System :=
  { buffer := zeroVec
    partWorkers := List.replicate m ⟨zeroVec, zeroVec⟩
    productWorkers := List.replicate n ⟨zeroVec, zeroVec, zeroVec⟩ }

/-- The state a part worker sees when it holds `bufferMutex1`. -/
def PartLocal.toState (l : PartLocal) (buffer : List Int) : PartState :=
  { buffer := buffer, loadOrder := l.loadOrder, unloadedParts := l.unloadedParts,
    canLoad := true, moveTime := 0, waitMoveTime := 0, allTypesMoved := true,
    notifyCount := 0, transferTime := 0 }

/-- The state a product worker sees when it holds `bufferMutex1`. -/
def ProductLocal.toState (l : ProductLocal) (buffer : List Int) : ProductState :=
  { buffer := buffer, pickupOrder := l.pickupOrder, cartState := l.cartState,
    localState := l.localState, canLoad := true, moveTime := 0, waitMoveTime := 0,
    allTypesMoved := true, notifyCount := 0, transferTime := 0 }

/-- The atomic buffer-touching steps, each executed by worker `w` while it
holds `bufferMutex1`.  An entry step carries the order the generator produced
for this iteration. -/
inductive Action where
  | partEntry (w : Nat) (order : List Int)
  | partWait (w : Nat)
  | partTimeout (w : Nat)
  | productEntry (w : Nat) (order : List Int)
  | productWait (w : Nat)
  | productTimeout (w : Nat)
deriving DecidableEq, Repr

/-- The generated order of an entry step has `numPartTypes` non-negative entries. -/
def Action.OrderNonNeg : Action → Prop
  | .partEntry _ order => NonNegVec order
  | .productEntry _ order => NonNegVec order
  | _ => True

/-- Write back the state of part worker `w` after a step. -/
def System.putPart (sys : System) (w : Nat) (s : PartState) : System :=
  { sys with
    buffer := s.buffer
    partWorkers := sys.partWorkers.set w ⟨s.loadOrder, s.unloadedParts⟩ }

/-- Write back the state of product worker `w` after a step. -/
def System.putProduct (sys : System) (w : Nat) (s : ProductState) : System :=
  { sys with
    buffer := s.buffer
    productWorkers := sys.productWorkers.set w ⟨s.pickupOrder, s.cartState, s.localState⟩ }

/-- One atomic step of the system; a step of a worker that does not exist
changes nothing. -/
def System.step (sys : System) : Action → System
  | .partEntry w order =>
    match sys.partWorkers[w]? with
    | none => sys
    | some l => sys.putPart w (partEntry { l.toState sys.buffer with loadOrder := order })
  | .partWait w =>
    match sys.partWorkers[w]? with
    | none => sys
    | some l => sys.putPart w (partWaitPredicate (l.toState sys.buffer))
  | .partTimeout w =>
    match sys.partWorkers[w]? with
    | none => sys
    | some l => sys.putPart w (moveUnloadedPartsToLoad (l.toState sys.buffer))
  | .productEntry w order =>
    match sys.productWorkers[w]? with
    | none => sys
    | some l => sys.putProduct w (productEntry { l.toState sys.buffer with pickupOrder := order })
  | .productWait w =>
    match sys.productWorkers[w]? with
    | none => sys
    | some l => sys.putProduct w (productWaitPredicate (l.toState sys.buffer))
  | .productTimeout w =>
    match sys.productWorkers[w]? with
    | none => sys
    | some l => sys.putProduct w (moveLocalToPickup (l.toState sys.buffer))

/-- Run a sequence of atomic steps. -/
def System.run (sys : System) (acts : List Action) : System :=
  acts.foldl System.step sys

/-! ## The loop bodies seen at one index

Each loop body at index `i` reads and writes only the entries of index `i`;
the functions below give that effect on the tuple of entries, and the tests
that clear `canLoad` / `allTypesMoved`. -/

/-- Every vector of a part worker state has `numPartTypes` entries. -/
def PartState.WF (s : PartState) : Prop :=
  s.buffer.length = numPartTypes ∧ s.loadOrder.length = numPartTypes ∧
    s.unloadedParts.length = numPartTypes

instance (s : PartState) : Decidable s.WF := by
  unfold PartState.WF
  infer_instance

/-- The entries of type `t`: `(buffer[t], loadOrder[t], unloadedParts[t])`. -/
def PartState.view (s : PartState) (t : Nat) : Int × Int × Int :=
  (idx s.buffer t, idx s.loadOrder t, idx s.unloadedParts t)

/-- Every vector of a product worker state has `numPartTypes` entries. -/
def ProductState.WF (s : ProductState) : Prop :=
  s.buffer.length = numPartTypes ∧ s.pickupOrder.length = numPartTypes ∧
    s.cartState.length = numPartTypes ∧ s.localState.length = numPartTypes

instance (s : ProductState) : Decidable s.WF := by
  unfold ProductState.WF
  infer_instance

/-- The entries of type `t`:
`(buffer[t], pickupOrder[t], cartState[t], localState[t])`. -/
def ProductState.view (s : ProductState) (t : Nat) : Int × Int × Int × Int :=
  (idx s.buffer t, idx s.pickupOrder t, idx s.cartState t, idx s.localState t)

/-- Effect of `partSplitStep i` on the entries of index `i`. -/
def partSplitAt (i : Nat) (v : Int × Int × Int) : Int × Int × Int :=
  if v.1 + v.2.1 + v.2.2 > idx bufferCapacities i then
    (v.1, idx bufferCapacities i - v.1, v.2.1 + v.2.2 - (idx bufferCapacities i - v.1))
  else v

/-- Effect of `partCommitStep i` on the entries of index `i`. -/
def partCommitAt (_i : Nat) (v : Int × Int × Int) : Int × Int × Int :=
  (v.1 + v.2.1, v.2.1, v.2.2)

/-- Effect of `partWaitStep i` on the entries of index `i`. -/
def partWaitAt (i : Nat) (v : Int × Int × Int) : Int × Int × Int :=
  if v.2.2 ≠ 0 ∧ v.1 + v.2.2 ≤ idx bufferCapacities i then (v.1 + v.2.2, v.2.1, 0) else v

/-- Effect of `moveUnloadedStep i` on the entries of index `i`. -/
def moveUnloadedAt (_i : Nat) (v : Int × Int × Int) : Int × Int × Int :=
  if v.2.2 > 0 then (v.1, v.2.1 + v.2.2, 0) else v

/-- The test of `partSplitStep i` fails: the entries of index `i` fit. -/
def partSplitFits (i : Nat) (v : Int × Int × Int) : Bool :=
  decide (¬ v.1 + v.2.1 + v.2.2 > idx bufferCapacities i)

/-- The test of `partWaitStep i` succeeds on the entries of index `i`. -/
def partWaitMoves (i : Nat) (v : Int × Int × Int) : Bool :=
  decide (v.2.2 ≠ 0 ∧ v.1 + v.2.2 ≤ idx bufferCapacities i)

/-- Effect of `productSplitStep i` on the entries of index `i`. -/
def productSplitAt (_i : Nat) (v : Int × Int × Int × Int) : Int × Int × Int × Int :=
  if v.1 < v.2.1 then (v.1, v.1, v.2.2.1, v.2.1 - v.1) else v

/-- The test of `productSplitStep i` fails: the buffer holds the order. -/
def productSplitFits (_i : Nat) (v : Int × Int × Int × Int) : Bool :=
  decide (¬ v.1 < v.2.1)

/-- Effect of `productCommitStep i` on the entries of index `i`. -/
def productCommitAt (_i : Nat) (v : Int × Int × Int × Int) : Int × Int × Int × Int :=
  (v.1, v.2.1, v.2.2.1 + v.2.1, v.2.2.2)

/-- Effect of `productWaitStep i` on the entries of index `i`. -/
def productWaitAt (_i : Nat) (v : Int × Int × Int × Int) : Int × Int × Int × Int :=
  if v.2.2.2 ≠ 0 ∧ v.1 ≠ 0 then
    if v.1 ≥ v.2.2.2 then (v.1 - v.2.2.2, v.2.1, v.2.2.1 + v.2.2.2, 0)
    else (0, v.2.1, v.2.2.1 + v.1, v.2.2.2 - v.1)
  else v

/-- The branch of `productWaitStep i` that leaves `allTypesMoved` alone. -/
def productWaitMoves (_i : Nat) (v : Int × Int × Int × Int) : Bool :=
  decide ((v.2.2.2 ≠ 0 ∧ v.1 ≠ 0) ∧ v.1 ≥ v.2.2.2)

/-- Effect of `moveLocalStep i` on the entries of index `i`. -/
def moveLocalAt (_i : Nat) (v : Int × Int × Int × Int) : Int × Int × Int × Int :=
  if v.2.2.2 > 0 then (v.1, v.2.1 + v.2.2.2, v.2.2.1, 0) else v

/-! ## Scenarios -/

/-- Scenario A: empty buffer, load order `[5,0,0,0,0]`. -/
def scenarioA : PartState :=
  { buffer := [0, 0, 0, 0, 0], loadOrder := [5, 0, 0, 0, 0], unloadedParts := [0, 0, 0, 0, 0],
    canLoad := true, moveTime := 0, waitMoveTime := 0, allTypesMoved := true,
    notifyCount := 0, transferTime := 0 }

/-- Scenario B: buffer `[5,0,0,0,0]`, pickup order `[3,0,0,0,2]`, empty cart. -/
def scenarioB : ProductState :=
  { buffer := [5, 0, 0, 0, 0], pickupOrder := [3, 0, 0, 0, 2], cartState := [0, 0, 0, 0, 0],
    localState := [0, 0, 0, 0, 0], canLoad := true, moveTime := 0, waitMoveTime := 0,
    allTypesMoved := true, notifyCount := 0, transferTime := 0 }

/-- A waiting part worker with two unloaded parts of type 0 and one free slot
of type 0 in the buffer. -/
def partOneFreeSlot : PartState :=
  { buffer := [4, 0, 0, 0, 0], loadOrder := [1, 0, 0, 0, 0], unloadedParts := [2, 0, 0, 0, 0],
    canLoad := false, moveTime := 20, waitMoveTime := 0, allTypesMoved := true,
    notifyCount := 0, transferTime := 0 }

/-- A waiting product worker short of one part of type 1 and two of type 4,
the buffer holding three parts of type 1 and one of type 4. -/
def productShortOfTwo : ProductState :=
  { buffer := [0, 3, 0, 0, 1], pickupOrder := [2, 0, 0, 0, 0], cartState := [2, 0, 0, 0, 0],
    localState := [0, 1, 0, 0, 2], canLoad := false, moveTime := 40, waitMoveTime := 0,
    allTypesMoved := true, notifyCount := 0, transferTime := 0 }

/-- A waiting part worker whose two unloaded parts of type 4 fit the buffer. -/
def partTwoFit : PartState :=
  { buffer := [5, 0, 0, 0, 1], loadOrder := [3, 0, 0, 0, 0], unloadedParts := [0, 0, 0, 0, 2],
    canLoad := false, moveTime := 60, waitMoveTime := 0, allTypesMoved := true,
    notifyCount := 0, transferTime := 0 }

/-- A timed-out part worker with two unloaded parts of type 4 left. -/
def partTimedOut : PartState :=
  { buffer := [5, 0, 0, 0, 3], loadOrder := [3, 0, 0, 0, 0], unloadedParts := [0, 0, 0, 0, 2],
    canLoad := false, moveTime := 60, waitMoveTime := 0, allTypesMoved := false,
    notifyCount := 0, transferTime := 0 }

/-- Scenario C: the product worker of scenario B after its entry step, no
part of type 4 ever arriving. -/
def scenarioC : ProductState := productEntry scenarioB

/-- Scenario B after its entry step and the arrival of two parts of type 4:
the product worker waits for exactly those two parts. -/
def scenarioBSupplied : ProductState :=
  { buffer := [5, 0, 0, 0, 2], pickupOrder := [3, 0, 0, 0, 0], cartState := [3, 0, 0, 0, 0],
    localState := [0, 0, 0, 0, 2], canLoad := false, moveTime := 60, waitMoveTime := 0,
    allTypesMoved := true, notifyCount := 0, transferTime := 0 }

/-- A waiting product worker short of two parts of type 0, the buffer holding
one part of type 0: the mirror image of `partOneFreeSlot`. -/
def productOneInStock : ProductState :=
  { buffer := [1, 0, 0, 0, 0], pickupOrder := [1, 0, 0, 0, 0], cartState := [1, 0, 0, 0, 0],
    localState := [2, 0, 0, 0, 0], canLoad := false, moveTime := 20, waitMoveTime := 0,
    allTypesMoved := true, notifyCount := 0, transferTime := 0 }

/-- A part worker entering with two parts of type 0 to load and one free slot
of type 0 in the buffer. -/
def partEntryOneFreeSlot : PartState :=
  { buffer := [4, 0, 0, 0, 0], loadOrder := [2, 0, 0, 0, 0], unloadedParts := [0, 0, 0, 0, 0],
    canLoad := true, moveTime := 0, waitMoveTime := 0, allTypesMoved := true,
    notifyCount := 0, transferTime := 0 }

/-- The product worker `shortOfTypeOne` after its entry step and the arrival
of two parts of type 1: it waits for exactly those two parts. -/
def shortOfTypeOneSupplied : ProductState :=
  { buffer := [3, 2, 0, 0, 0], pickupOrder := [3, 0, 0, 0, 0], cartState := [3, 0, 0, 0, 0],
    localState := [0, 2, 0, 0, 0], canLoad := false, moveTime := 60, waitMoveTime := 0,
    allTypesMoved := true, notifyCount := 0, transferTime := 0 }

/-! ## The invariant of the system and the invariant of the `while` loop -/

instance (a : Action) : Decidable a.OrderNonNeg := by
  cases a <;> unfold Action.OrderNonNeg <;> infer_instance

/-- What holds of the system between two atomic steps: the buffer is within
bounds, every vector has `numPartTypes` entries and no carried remainder has a
negative entry. -/
def System.Inv (sys : System) : Prop :=
  InBounds sys.buffer ∧
    (∀ l ∈ sys.partWorkers, l.loadOrder.length = numPartTypes ∧ NonNegVec l.unloadedParts) ∧
    (∀ l ∈ sys.productWorkers, l.pickupOrder.length = numPartTypes ∧
      l.cartState.length = numPartTypes ∧ NonNegVec l.localState)

/-- Two part workers and one product worker interleaved: entries, waits and
timeouts. -/
def sampleRun : List Action :=
  [.partEntry 0 [5, 0, 0, 0, 0], .productEntry 0 [3, 0, 0, 0, 2], .productWait 0,
    .partEntry 1 [2, 0, 0, 3, 0], .partWait 1, .productTimeout 0, .partTimeout 1,
    .productEntry 0 [0, 1, 2, 0, 2], .partEntry 0 [0, 1, 1, 3, 0], .productWait 0]

/-- The stream of `rand()` values that starts with the listed values. -/
def randOf (values : List Nat) : Nat → Nat := fun k => values.getD k 0

/-- The draws of `distribution(gen)`, listed by loop index. -/
def drawOf (values : List Int) : Nat → Int := fun i => values.getD i 0

/-- A product worker whose pickup order `[3,2,0,0,0]` meets a buffer without
parts of type 1. -/
def shortOfTypeOne : ProductState :=
  { buffer := [3, 0, 0, 0, 0], pickupOrder := [3, 2, 0, 0, 0], cartState := [0, 0, 0, 0, 0],
    localState := [0, 0, 0, 0, 0], canLoad := true, moveTime := 0, waitMoveTime := 0,
    allTypesMoved := true, notifyCount := 0, transferTime := 0 }

/-- A state of the `while` loop in which every access is in range. -/
def FillInv (maxNonZeroElements : Int) (s : PickupFill) : Prop :=
  s.pickupOrder.length = numPartTypes ∧ (∀ x ∈ s.pickupOrder, 0 ≤ x) ∧
    0 ≤ s.remainingSpace ∧ s.pickupOrder.sum + s.remainingSpace ≤ 5 ∧
    0 ≤ s.i ∧ s.i + s.remainingElements = maxNonZeroElements

/-- The move time of lines 169-172 for a vector of quantities: the sum over
the types of `moveTimes[i] * v[i]`. -/
def moveTimeOf (v : List Int) : Int :=
  forLoop numPartTypes (fun i acc => acc + idx moveTimes i * idx v i) 0

/-- The timed-out part worker `partTimedOut` with twice the leftover. -/
def partTimedOutTwice : PartState :=
  { partTimedOut with unloadedParts := [0, 0, 0, 0, 4] }

/-! ## Loops and vectors -/

theorem forLoop_zero {σ : Type} (body : Nat → σ → σ) (s : σ) : forLoop 0 body s = s := by
  simp [forLoop]

theorem forLoop_succ {σ : Type} (n : Nat) (body : Nat → σ → σ) (s : σ) :
    forLoop (n + 1) body s = body n (forLoop n body s) := by
  simp [forLoop, List.range_succ, List.foldl_append]

theorem idx_set_self (v : List Int) (i : Nat) (x : Int) (h : i < v.length) :
    idx (v.set i x) i = x := by
  simp [idx, List.getD_eq_getElem?_getD, List.getElem?_set, h]

theorem idx_set_ne (v : List Int) (i t : Nat) (x : Int) (h : t ≠ i) :
    idx (v.set i x) t = idx v t := by
  simp [idx, List.getD_eq_getElem?_getD, List.getElem?_set, Ne.symm h]

theorem vec_ext (v w : List Int) (hl : v.length = w.length)
    (h : ∀ t, t < v.length → idx v t = idx w t) : v = w := by
  apply List.ext_getElem hl
  intro n h1 h2
  have := h n h1
  simpa [idx, List.getD_eq_getElem?_getD, List.getElem?_eq_getElem h1,
    List.getElem?_eq_getElem h2] using this

/-- A loop whose body at index `i` rewrites only the entries of index `i`:
after `n` iterations the entries below `n` have been rewritten once. -/
theorem forLoop_view {σ α : Type} (view : σ → Nat → α) (inv : σ → Prop)
    (body : Nat → σ → σ) (f : Nat → α → α) (N : Nat)
    (hinv : ∀ i s, inv s → inv (body i s))
    (hother : ∀ i s t, inv s → t ≠ i → view (body i s) t = view s t)
    (hself : ∀ i s, inv s → i < N → view (body i s) i = f i (view s i))
    (s : σ) (hs : inv s) (n : Nat) (hn : n ≤ N) :
    inv (forLoop n body s) ∧
      ∀ t, view (forLoop n body s) t = if t < n then f t (view s t) else view s t := by
  induction n with
  | zero => simp [forLoop_zero, hs]
  | succ n ih =>
    obtain ⟨h1, h2⟩ := ih (by omega)
    rw [forLoop_succ]
    refine ⟨hinv _ _ h1, fun t => ?_⟩
    by_cases ht : t = n
    · subst ht
      rw [hself _ _ h1 (by omega), h2]
      simp
    · rw [hother _ _ _ h1 ht, h2]
      by_cases h : t < n
      · have h3 : t < n + 1 := by omega
        simp [h, h3]
      · have h3 : ¬ t < n + 1 := by omega
        simp [h, h3]

/-- A flag that each iteration conjoins with a test on the entries of its
index: after the loop it is the conjunction over all indices, each test
taken on the entries before the loop. -/
theorem forLoop_flag {σ α : Type} (view : σ → Nat → α) (inv : σ → Prop)
    (body : Nat → σ → σ) (f : Nat → α → α) (N : Nat)
    (hinv : ∀ i s, inv s → inv (body i s))
    (hother : ∀ i s t, inv s → t ≠ i → view (body i s) t = view s t)
    (hself : ∀ i s, inv s → i < N → view (body i s) i = f i (view s i))
    (flag : σ → Bool) (g : Nat → α → Bool)
    (hflag : ∀ i s, inv s → i < N → flag (body i s) = (flag s && g i (view s i)))
    (s : σ) (hs : inv s) (n : Nat) (hn : n ≤ N) :
    flag (forLoop n body s) = (flag s && (List.range n).all (fun i => g i (view s i))) := by
  induction n with
  | zero => simp [forLoop_zero]
  | succ n ih =>
    obtain ⟨h1, h2⟩ := forLoop_view view inv body f N hinv hother hself s hs n (by omega)
    rw [forLoop_succ, hflag _ _ h1 (by omega), ih (by omega), h2 n]
    simp [List.range_succ, Bool.and_assoc]

/-! ## The loops of the part worker, entry by entry -/

theorem partSplitStep_wf (i : Nat) (s : PartState) (h : s.WF) : (partSplitStep i s).WF := by
  unfold partSplitStep
  split <;> simpa [PartState.WF] using h

theorem partSplitStep_other (i : Nat) (s : PartState) (t : Nat) (_h : s.WF) (ht : t ≠ i) :
    (partSplitStep i s).view t = s.view t := by
  unfold partSplitStep
  split <;> simp [PartState.view, idx_set_ne _ _ _ _ ht]

theorem partSplitStep_self (i : Nat) (s : PartState) (h : s.WF) (hi : i < numPartTypes) :
    (partSplitStep i s).view i = partSplitAt i (s.view i) := by
  obtain ⟨h1, h2, h3⟩ := h
  unfold partSplitStep partSplitAt
  simp only [PartState.view]
  split <;> simp [idx_set_self, h2, h3, hi]

theorem partSplitStep_flag (i : Nat) (s : PartState) (_h : s.WF) (_hi : i < numPartTypes) :
    (partSplitStep i s).canLoad = (s.canLoad && partSplitFits i (s.view i)) := by
  unfold partSplitStep partSplitFits
  simp only [PartState.view]
  split <;> simp_all

theorem partSplit_loop (s : PartState) (h : s.WF) :
    (forLoop numPartTypes partSplitStep s).WF ∧
      ∀ t, (forLoop numPartTypes partSplitStep s).view t =
        if t < numPartTypes then partSplitAt t (s.view t) else s.view t :=
  forLoop_view PartState.view PartState.WF partSplitStep partSplitAt numPartTypes
    partSplitStep_wf partSplitStep_other partSplitStep_self s h numPartTypes (le_refl _)

theorem partSplit_canLoad (s : PartState) (h : s.WF) :
    (forLoop numPartTypes partSplitStep s).canLoad = (s.canLoad &&
      (List.range numPartTypes).all (fun i => partSplitFits i (s.view i))) :=
  forLoop_flag PartState.view PartState.WF partSplitStep partSplitAt numPartTypes
    partSplitStep_wf partSplitStep_other partSplitStep_self PartState.canLoad partSplitFits
    partSplitStep_flag s h numPartTypes (le_refl _)

theorem partMoveTime_loop (s : PartState) (n : Nat) :
    (forLoop n partMoveTimeStep s).buffer = s.buffer ∧
      (forLoop n partMoveTimeStep s).loadOrder = s.loadOrder ∧
      (forLoop n partMoveTimeStep s).unloadedParts = s.unloadedParts ∧
      (forLoop n partMoveTimeStep s).canLoad = s.canLoad := by
  induction n with
  | zero => simp [forLoop_zero]
  | succ n ih => simpa [forLoop_succ, partMoveTimeStep] using ih

theorem partCommitStep_wf (i : Nat) (s : PartState) (h : s.WF) : (partCommitStep i s).WF := by
  unfold partCommitStep
  simpa [PartState.WF] using h

theorem partCommitStep_other (i : Nat) (s : PartState) (t : Nat) (_h : s.WF) (ht : t ≠ i) :
    (partCommitStep i s).view t = s.view t := by
  simp [partCommitStep, PartState.view, idx_set_ne _ _ _ _ ht]

theorem partCommitStep_self (i : Nat) (s : PartState) (h : s.WF) (hi : i < numPartTypes) :
    (partCommitStep i s).view i = partCommitAt i (s.view i) := by
  obtain ⟨h1, h2, h3⟩ := h
  simp [partCommitStep, partCommitAt, PartState.view, idx_set_self, h1, hi]

theorem partCommit_loop (s : PartState) (h : s.WF) :
    (forLoop numPartTypes partCommitStep s).WF ∧
      ∀ t, (forLoop numPartTypes partCommitStep s).view t =
        if t < numPartTypes then partCommitAt t (s.view t) else s.view t :=
  forLoop_view PartState.view PartState.WF partCommitStep partCommitAt numPartTypes
    partCommitStep_wf partCommitStep_other partCommitStep_self s h numPartTypes (le_refl _)

theorem partCommit_canLoad (s : PartState) (n : Nat) :
    (forLoop n partCommitStep s).canLoad = s.canLoad := by
  induction n with
  | zero => simp [forLoop_zero]
  | succ n ih => simpa [forLoop_succ, partCommitStep] using ih

theorem partWaitStep_wf (i : Nat) (s : PartState) (h : s.WF) : (partWaitStep i s).WF := by
  unfold partWaitStep
  split <;> simpa [PartState.WF] using h

theorem partWaitStep_other (i : Nat) (s : PartState) (t : Nat) (_h : s.WF) (ht : t ≠ i) :
    (partWaitStep i s).view t = s.view t := by
  unfold partWaitStep
  split <;> simp [PartState.view, idx_set_ne _ _ _ _ ht]

theorem partWaitStep_self (i : Nat) (s : PartState) (h : s.WF) (hi : i < numPartTypes) :
    (partWaitStep i s).view i = partWaitAt i (s.view i) := by
  obtain ⟨h1, h2, h3⟩ := h
  unfold partWaitStep partWaitAt
  simp only [PartState.view]
  split <;> simp [idx_set_self, h1, h3, hi]

theorem partWaitStep_flag (i : Nat) (s : PartState) (_h : s.WF) (_hi : i < numPartTypes) :
    (partWaitStep i s).allTypesMoved = (s.allTypesMoved && partWaitMoves i (s.view i)) := by
  unfold partWaitStep partWaitMoves
  simp only [PartState.view]
  split <;> simp_all

theorem partWait_loop (s : PartState) (h : s.WF) :
    (forLoop numPartTypes partWaitStep s).WF ∧
      ∀ t, (forLoop numPartTypes partWaitStep s).view t =
        if t < numPartTypes then partWaitAt t (s.view t) else s.view t :=
  forLoop_view PartState.view PartState.WF partWaitStep partWaitAt numPartTypes
    partWaitStep_wf partWaitStep_other partWaitStep_self s h numPartTypes (le_refl _)

theorem partWait_flag (s : PartState) (h : s.WF) :
    (forLoop numPartTypes partWaitStep s).allTypesMoved = (s.allTypesMoved &&
      (List.range numPartTypes).all (fun i => partWaitMoves i (s.view i))) :=
  forLoop_flag PartState.view PartState.WF partWaitStep partWaitAt numPartTypes
    partWaitStep_wf partWaitStep_other partWaitStep_self PartState.allTypesMoved partWaitMoves
    partWaitStep_flag s h numPartTypes (le_refl _)

theorem moveUnloadedStep_wf (i : Nat) (s : PartState) (h : s.WF) :
    (moveUnloadedStep i s).WF := by
  unfold moveUnloadedStep
  split <;> simpa [PartState.WF] using h

theorem moveUnloadedStep_other (i : Nat) (s : PartState) (t : Nat) (_h : s.WF) (ht : t ≠ i) :
    (moveUnloadedStep i s).view t = s.view t := by
  unfold moveUnloadedStep
  split <;> simp [PartState.view, idx_set_ne _ _ _ _ ht]

theorem moveUnloadedStep_self (i : Nat) (s : PartState) (h : s.WF) (hi : i < numPartTypes) :
    (moveUnloadedStep i s).view i = moveUnloadedAt i (s.view i) := by
  obtain ⟨h1, h2, h3⟩ := h
  unfold moveUnloadedStep moveUnloadedAt
  simp only [PartState.view]
  split <;> simp [idx_set_self, h2, h3, hi]

theorem moveUnloaded_loop (s : PartState) (h : s.WF) :
    (forLoop numPartTypes moveUnloadedStep s).WF ∧
      ∀ t, (forLoop numPartTypes moveUnloadedStep s).view t =
        if t < numPartTypes then moveUnloadedAt t (s.view t) else s.view t :=
  forLoop_view PartState.view PartState.WF moveUnloadedStep moveUnloadedAt numPartTypes
    moveUnloadedStep_wf moveUnloadedStep_other moveUnloadedStep_self s h numPartTypes (le_refl _)

/-! ## The loops of the product worker, entry by entry -/

theorem productSplitStep_wf (i : Nat) (s : ProductState) (h : s.WF) :
    (productSplitStep i s).WF := by
  unfold productSplitStep
  split <;> simpa [ProductState.WF] using h

theorem productSplitStep_other (i : Nat) (s : ProductState) (t : Nat) (_h : s.WF)
    (ht : t ≠ i) : (productSplitStep i s).view t = s.view t := by
  unfold productSplitStep
  split <;> simp [ProductState.view, idx_set_ne _ _ _ _ ht]

theorem productSplitStep_self (i : Nat) (s : ProductState) (h : s.WF)
    (hi : i < numPartTypes) :
    (productSplitStep i s).view i = productSplitAt i (s.view i) := by
  obtain ⟨h1, h2, h3, h4⟩ := h
  unfold productSplitStep productSplitAt
  simp only [ProductState.view]
  split <;> simp [idx_set_self, h2, h4, hi]

theorem productSplitStep_flag (i : Nat) (s : ProductState) (_h : s.WF)
    (_hi : i < numPartTypes) :
    (productSplitStep i s).canLoad = (s.canLoad && productSplitFits i (s.view i)) := by
  unfold productSplitStep productSplitFits
  simp only [ProductState.view]
  split <;> simp_all

theorem productSplit_loop (s : ProductState) (h : s.WF) :
    (forLoop numPartTypes productSplitStep s).WF ∧
      ∀ t, (forLoop numPartTypes productSplitStep s).view t =
        if t < numPartTypes then productSplitAt t (s.view t) else s.view t :=
  forLoop_view ProductState.view ProductState.WF productSplitStep productSplitAt numPartTypes
    productSplitStep_wf productSplitStep_other productSplitStep_self s h numPartTypes
    (le_refl _)

theorem productSplit_canLoad (s : ProductState) (h : s.WF) :
    (forLoop numPartTypes productSplitStep s).canLoad = (s.canLoad &&
      (List.range numPartTypes).all (fun i => productSplitFits i (s.view i))) :=
  forLoop_flag ProductState.view ProductState.WF productSplitStep productSplitAt numPartTypes
    productSplitStep_wf productSplitStep_other productSplitStep_self ProductState.canLoad
    productSplitFits productSplitStep_flag s h numPartTypes (le_refl _)

theorem productMoveTime_loop (s : ProductState) (n : Nat) :
    (forLoop n productMoveTimeStep s).buffer = s.buffer ∧
      (forLoop n productMoveTimeStep s).pickupOrder = s.pickupOrder ∧
      (forLoop n productMoveTimeStep s).cartState = s.cartState ∧
      (forLoop n productMoveTimeStep s).localState = s.localState ∧
      (forLoop n productMoveTimeStep s).canLoad = s.canLoad := by
  induction n with
  | zero => simp [forLoop_zero]
  | succ n ih => simpa [forLoop_succ, productMoveTimeStep] using ih

theorem productCommitStep_wf (i : Nat) (s : ProductState) (h : s.WF) :
    (productCommitStep i s).WF := by
  unfold productCommitStep
  simpa [ProductState.WF] using h

theorem productCommitStep_other (i : Nat) (s : ProductState) (t : Nat) (_h : s.WF)
    (ht : t ≠ i) : (productCommitStep i s).view t = s.view t := by
  simp [productCommitStep, ProductState.view, idx_set_ne _ _ _ _ ht]

theorem productCommitStep_self (i : Nat) (s : ProductState) (h : s.WF)
    (hi : i < numPartTypes) :
    (productCommitStep i s).view i = productCommitAt i (s.view i) := by
  obtain ⟨h1, h2, h3, h4⟩ := h
  simp [productCommitStep, productCommitAt, ProductState.view, idx_set_self, h3, hi]

theorem productCommit_loop (s : ProductState) (h : s.WF) :
    (forLoop numPartTypes productCommitStep s).WF ∧
      ∀ t, (forLoop numPartTypes productCommitStep s).view t =
        if t < numPartTypes then productCommitAt t (s.view t) else s.view t :=
  forLoop_view ProductState.view ProductState.WF productCommitStep productCommitAt
    numPartTypes productCommitStep_wf productCommitStep_other productCommitStep_self s h
    numPartTypes (le_refl _)

theorem productCommit_canLoad (s : ProductState) (n : Nat) :
    (forLoop n productCommitStep s).canLoad = s.canLoad := by
  induction n with
  | zero => simp [forLoop_zero]
  | succ n ih => simpa [forLoop_succ, productCommitStep] using ih

theorem productWaitStep_wf (i : Nat) (s : ProductState) (h : s.WF) :
    (productWaitStep i s).WF := by
  unfold productWaitStep
  split
  · split <;> simpa [ProductState.WF] using h
  · simpa [ProductState.WF] using h

theorem productWaitStep_other (i : Nat) (s : ProductState) (t : Nat) (_h : s.WF)
    (ht : t ≠ i) : (productWaitStep i s).view t = s.view t := by
  unfold productWaitStep
  split
  · split <;> simp [ProductState.view, idx_set_ne _ _ _ _ ht]
  · simp [ProductState.view]

theorem productWaitStep_self (i : Nat) (s : ProductState) (h : s.WF)
    (hi : i < numPartTypes) :
    (productWaitStep i s).view i = productWaitAt i (s.view i) := by
  obtain ⟨h1, h2, h3, h4⟩ := h
  unfold productWaitStep productWaitAt
  simp only [ProductState.view]
  split
  · split <;> simp [idx_set_self, h1, h3, h4, hi]
  · simp

theorem productWaitStep_flag (i : Nat) (s : ProductState) (_h : s.WF)
    (_hi : i < numPartTypes) :
    (productWaitStep i s).allTypesMoved =
      (s.allTypesMoved && productWaitMoves i (s.view i)) := by
  unfold productWaitStep productWaitMoves
  simp only [ProductState.view]
  split
  · split <;> simp_all
  · simp_all

theorem productWait_loop (s : ProductState) (h : s.WF) :
    (forLoop numPartTypes productWaitStep s).WF ∧
      ∀ t, (forLoop numPartTypes productWaitStep s).view t =
        if t < numPartTypes then productWaitAt t (s.view t) else s.view t :=
  forLoop_view ProductState.view ProductState.WF productWaitStep productWaitAt numPartTypes
    productWaitStep_wf productWaitStep_other productWaitStep_self s h numPartTypes (le_refl _)

theorem productWait_flag (s : ProductState) (h : s.WF) :
    (forLoop numPartTypes productWaitStep s).allTypesMoved = (s.allTypesMoved &&
      (List.range numPartTypes).all (fun i => productWaitMoves i (s.view i))) :=
  forLoop_flag ProductState.view ProductState.WF productWaitStep productWaitAt numPartTypes
    productWaitStep_wf productWaitStep_other productWaitStep_self ProductState.allTypesMoved
    productWaitMoves productWaitStep_flag s h numPartTypes (le_refl _)

theorem moveLocalStep_wf (i : Nat) (s : ProductState) (h : s.WF) :
    (moveLocalStep i s).WF := by
  unfold moveLocalStep
  split <;> simpa [ProductState.WF] using h

theorem moveLocalStep_other (i : Nat) (s : ProductState) (t : Nat) (_h : s.WF)
    (ht : t ≠ i) : (moveLocalStep i s).view t = s.view t := by
  unfold moveLocalStep
  split <;> simp [ProductState.view, idx_set_ne _ _ _ _ ht]

theorem moveLocalStep_self (i : Nat) (s : ProductState) (h : s.WF)
    (hi : i < numPartTypes) :
    (moveLocalStep i s).view i = moveLocalAt i (s.view i) := by
  obtain ⟨h1, h2, h3, h4⟩ := h
  unfold moveLocalStep moveLocalAt
  simp only [ProductState.view]
  split <;> simp [idx_set_self, h2, h4, hi]

theorem moveLocal_loop (s : ProductState) (h : s.WF) :
    (forLoop numPartTypes moveLocalStep s).WF ∧
      ∀ t, (forLoop numPartTypes moveLocalStep s).view t =
        if t < numPartTypes then moveLocalAt t (s.view t) else s.view t :=
  forLoop_view ProductState.view ProductState.WF moveLocalStep moveLocalAt numPartTypes
    moveLocalStep_wf moveLocalStep_other moveLocalStep_self s h numPartTypes (le_refl _)

/-! ## The six atomic steps, entry by entry -/

theorem partEntry_view (s : PartState) (h : s.WF) :
    (partEntry s).WF ∧ ∀ t, t < numPartTypes →
      (partEntry s).view t = partCommitAt t (partSplitAt t (s.view t)) := by
  have h0 : ({ s with canLoad := true } : PartState).WF := h
  obtain ⟨w1, v1⟩ := partSplit_loop _ h0
  obtain ⟨m1, m2, m3, _⟩ := partMoveTime_loop
    { forLoop numPartTypes partSplitStep { s with canLoad := true } with moveTime := 0 }
    numPartTypes
  have w2 : (forLoop numPartTypes partMoveTimeStep
      { forLoop numPartTypes partSplitStep { s with canLoad := true } with moveTime := 0 }).WF := by
    simpa [PartState.WF, m1, m2, m3] using w1
  obtain ⟨w3, v3⟩ := partCommit_loop _ w2
  refine ⟨w3, fun t ht => ?_⟩
  have e1 := v1 t
  have e3 := v3 t
  simp only [ht, if_true] at e1 e3
  refine e3.trans (congrArg (partCommitAt t) (Eq.trans ?_ e1))
  simp only [PartState.view, m1, m2, m3]

theorem partEntry_canLoad (s : PartState) (h : s.WF) :
    (partEntry s).canLoad =
      (List.range numPartTypes).all (fun i => partSplitFits i (s.view i)) := by
  have h0 : ({ s with canLoad := true } : PartState).WF := h
  have c1 := partSplit_canLoad _ h0
  obtain ⟨_, _, _, m4⟩ := partMoveTime_loop
    { forLoop numPartTypes partSplitStep { s with canLoad := true } with moveTime := 0 }
    numPartTypes
  unfold partEntry
  rw [partCommit_canLoad, m4]
  simpa [PartState.view] using c1

theorem partWaitPredicate_view (s : PartState) (h : s.WF) :
    (partWaitPredicate s).WF ∧ ∀ t, t < numPartTypes →
      (partWaitPredicate s).view t = partWaitAt t (s.view t) := by
  have h0 : ({ s with allTypesMoved := true } : PartState).WF := h
  obtain ⟨w1, v1⟩ := partWait_loop _ h0
  refine ⟨?_, fun t ht => ?_⟩
  · simp only [PartState.WF] at w1 ⊢
    unfold partWaitPredicate
    simp only []
    split
    · simpa only [] using w1
    · simpa only [] using w1
  · have e1 := v1 t
    simp only [ht, if_true, PartState.view] at e1
    simp only [PartState.view]
    unfold partWaitPredicate
    simp only []
    split
    · simpa only [] using e1
    · simpa only [] using e1

theorem partWaitPredicate_flag (s : PartState) (h : s.WF) :
    (partWaitPredicate s).allTypesMoved =
      (List.range numPartTypes).all (fun i => partWaitMoves i (s.view i)) := by
  have h0 : ({ s with allTypesMoved := true } : PartState).WF := h
  have c1 := partWait_flag _ h0
  unfold partWaitPredicate
  simp only []
  split
  · simpa [PartState.view] using c1
  · simpa [PartState.view] using c1

theorem moveUnloadedPartsToLoad_view (s : PartState)
    (h1 : s.buffer.length = numPartTypes) (h3 : s.unloadedParts.length = numPartTypes) :
    (moveUnloadedPartsToLoad s).WF ∧ ∀ t, t < numPartTypes →
      (moveUnloadedPartsToLoad s).view t =
        moveUnloadedAt t (idx s.buffer t, 0, idx s.unloadedParts t) := by
  have h0 : ({ s with transferTime := 0, loadOrder := List.replicate numPartTypes 0 } :
      PartState).WF := ⟨h1, by simp, h3⟩
  obtain ⟨w1, v1⟩ := moveUnloaded_loop _ h0
  refine ⟨w1, fun t ht => ?_⟩
  have e1 := v1 t
  simp only [ht, if_true] at e1
  unfold moveUnloadedPartsToLoad
  rw [e1]
  simp [PartState.view, idx, List.getD_eq_getElem?_getD, ht]

theorem productEntry_view (s : ProductState) (h : s.WF) :
    (productEntry s).WF ∧ ∀ t, t < numPartTypes →
      (productEntry s).view t = productCommitAt t (productSplitAt t (s.view t)) := by
  have h0 : ({ s with canLoad := true } : ProductState).WF := h
  obtain ⟨w1, v1⟩ := productSplit_loop _ h0
  obtain ⟨m1, m2, m3, m4, _⟩ := productMoveTime_loop
    { forLoop numPartTypes productSplitStep { s with canLoad := true } with moveTime := 0 }
    numPartTypes
  have w2 : (forLoop numPartTypes productMoveTimeStep
      { forLoop numPartTypes productSplitStep { s with canLoad := true } with
        moveTime := 0 }).WF := by
    simpa [ProductState.WF, m1, m2, m3, m4] using w1
  obtain ⟨w3, v3⟩ := productCommit_loop _ w2
  refine ⟨w3, fun t ht => ?_⟩
  have e1 := v1 t
  have e3 := v3 t
  simp only [ht, if_true] at e1 e3
  refine e3.trans (congrArg (productCommitAt t) (Eq.trans ?_ e1))
  simp only [ProductState.view, m1, m2, m3, m4]

theorem productEntry_canLoad (s : ProductState) (h : s.WF) :
    (productEntry s).canLoad =
      (List.range numPartTypes).all (fun i => productSplitFits i (s.view i)) := by
  have h0 : ({ s with canLoad := true } : ProductState).WF := h
  have c1 := productSplit_canLoad _ h0
  obtain ⟨_, _, _, _, m5⟩ := productMoveTime_loop
    { forLoop numPartTypes productSplitStep { s with canLoad := true } with moveTime := 0 }
    numPartTypes
  unfold productEntry
  rw [productCommit_canLoad, m5]
  simpa [ProductState.view] using c1

theorem productWaitPredicate_view (s : ProductState) (h : s.WF) :
    (productWaitPredicate s).WF ∧ ∀ t, t < numPartTypes →
      (productWaitPredicate s).view t = productWaitAt t (s.view t) := by
  have h0 : ({ s with allTypesMoved := true } : ProductState).WF := h
  obtain ⟨w1, v1⟩ := productWait_loop _ h0
  refine ⟨?_, fun t ht => ?_⟩
  · simp only [ProductState.WF] at w1 ⊢
    unfold productWaitPredicate
    simp only []
    split
    · simpa only [] using w1
    · simpa only [] using w1
  · have e1 := v1 t
    simp only [ht, if_true, ProductState.view] at e1
    simp only [ProductState.view]
    unfold productWaitPredicate
    simp only []
    split
    · simpa only [] using e1
    · simpa only [] using e1

theorem productWaitPredicate_flag (s : ProductState) (h : s.WF) :
    (productWaitPredicate s).allTypesMoved =
      (List.range numPartTypes).all (fun i => productWaitMoves i (s.view i)) := by
  have h0 : ({ s with allTypesMoved := true } : ProductState).WF := h
  have c1 := productWait_flag _ h0
  unfold productWaitPredicate
  simp only []
  split
  · simpa [ProductState.view] using c1
  · simpa [ProductState.view] using c1

theorem moveLocalToPickup_view (s : ProductState)
    (h1 : s.buffer.length = numPartTypes) (h3 : s.cartState.length = numPartTypes)
    (h4 : s.localState.length = numPartTypes) :
    (moveLocalToPickup s).WF ∧ ∀ t, t < numPartTypes →
      (moveLocalToPickup s).view t =
        moveLocalAt t (idx s.buffer t, 0, idx s.cartState t, idx s.localState t) := by
  have h0 : ({ s with transferTime := 0, pickupOrder := List.replicate numPartTypes 0 } :
      ProductState).WF := ⟨h1, by simp, h3, h4⟩
  obtain ⟨w1, v1⟩ := moveLocal_loop _ h0
  refine ⟨w1, fun t ht => ?_⟩
  have e1 := v1 t
  simp only [ht, if_true] at e1
  unfold moveLocalToPickup
  rw [e1]
  simp [ProductState.view, idx, List.getD_eq_getElem?_getD, ht]

/-! ## Small facts used by the claims -/

theorem all_range_false (n : Nat) (p : Nat → Bool) :
    (List.range n).all p = false ↔ ∃ t, t < n ∧ p t = false := by
  rw [← Bool.not_eq_true, List.all_eq_true]
  simp [List.mem_range]

theorem idx_zeroVec (t : Nat) : idx zeroVec t = 0 := by
  unfold idx zeroVec
  rw [List.getD_eq_getElem?_getD]
  by_cases h : t < numPartTypes
  · simp [h]
  · simp [h]

theorem zeroVec_length : zeroVec.length = numPartTypes := by
  simp [zeroVec]

/-! ## Entry split -/

/-- C3 (entry split, either role).  For a buffer within bounds, an order with
non-negative entries and an all-zero carried remainder, the entry step leaves
in the order vector `accepted[t] = min(order[t], available[t])` and in the
remainder `deferred[t] = order[t] - accepted[t]`, where `available[t]` is
`bufferCapacities[t] - buffer[t]` for a part worker and `buffer[t]` for a
product worker; the part worker's buffer becomes `buffer[t] + accepted[t]`, the
product worker's cart becomes `cartState[t] + accepted[t]`; and `canLoad` is
false exactly when some `deferred[t]` is positive.  Scenario A: the order
`[5,0,0,0,0]` against the empty buffer is committed in full, the buffer becomes
`[5,0,0,0,0]` and `canLoad` stays true. -/
theorem entry_split_accepts_min (p : PartState) (d : ProductState)
    (hpb : InBounds p.buffer) (hpo : NonNegVec p.loadOrder) (hpu : p.unloadedParts = zeroVec)
    (hdb : InBounds d.buffer) (hdo : NonNegVec d.pickupOrder) (hdl : d.localState = zeroVec)
    (hdc : d.cartState.length = numPartTypes) :
    ((∀ t, t < numPartTypes →
        idx (partEntry p).loadOrder t =
          min (idx p.loadOrder t) (idx bufferCapacities t - idx p.buffer t) ∧
        idx (partEntry p).unloadedParts t = idx p.loadOrder t - idx (partEntry p).loadOrder t ∧
        idx (partEntry p).buffer t = idx p.buffer t + idx (partEntry p).loadOrder t) ∧
      ((partEntry p).canLoad = false ↔
        ∃ t, t < numPartTypes ∧ idx (partEntry p).unloadedParts t > 0)) ∧
    ((∀ t, t < numPartTypes →
        idx (productEntry d).pickupOrder t = min (idx d.pickupOrder t) (idx d.buffer t) ∧
        idx (productEntry d).localState t =
          idx d.pickupOrder t - idx (productEntry d).pickupOrder t ∧
        idx (productEntry d).cartState t =
          idx d.cartState t + idx (productEntry d).pickupOrder t) ∧
      ((productEntry d).canLoad = false ↔
        ∃ t, t < numPartTypes ∧ idx (productEntry d).localState t > 0)) ∧
    ((partEntry scenarioA).loadOrder = [5, 0, 0, 0, 0] ∧
      (partEntry scenarioA).unloadedParts = [0, 0, 0, 0, 0] ∧
      (partEntry scenarioA).buffer = [5, 0, 0, 0, 0] ∧
      (partEntry scenarioA).canLoad = true) := by
  refine ⟨?_, ?_, by decide⟩
  · have hw : p.WF := ⟨hpb.1, hpo.1, by rw [hpu]; exact zeroVec_length⟩
    obtain ⟨_, hv⟩ := partEntry_view p hw
    have key : ∀ t, t < numPartTypes →
        idx (partEntry p).loadOrder t =
            min (idx p.loadOrder t) (idx bufferCapacities t - idx p.buffer t) ∧
          idx (partEntry p).unloadedParts t =
            idx p.loadOrder t - idx (partEntry p).loadOrder t ∧
          idx (partEntry p).buffer t = idx p.buffer t + idx (partEntry p).loadOrder t ∧
          (partSplitFits t (p.view t) = false ↔ idx (partEntry p).unloadedParts t > 0) := by
      intro t ht
      have e := hv t ht
      have hb := hpb.2 t ht
      have ho := hpo.2 t ht
      simp only [PartState.view, partCommitAt, partSplitAt, partSplitFits, hpu,
        idx_zeroVec] at e ⊢
      split at e
      · simp only [Prod.mk.injEq] at e
        obtain ⟨e1, e2, e3⟩ := e
        rw [e1, e2, e3]
        refine ⟨?_, ?_, ?_, ?_⟩
        · rw [min_def]; split <;> omega
        · omega
        · omega
        · simp; omega
      · simp only [Prod.mk.injEq] at e
        obtain ⟨e1, e2, e3⟩ := e
        rw [e1, e2, e3]
        refine ⟨?_, ?_, ?_, ?_⟩
        · rw [min_def]; split <;> omega
        · omega
        · omega
        · simp; omega
    refine ⟨fun t ht => ⟨(key t ht).1, (key t ht).2.1, (key t ht).2.2.1⟩, ?_⟩
    rw [partEntry_canLoad p hw, all_range_false]
    constructor
    · rintro ⟨t, ht, h⟩
      exact ⟨t, ht, (key t ht).2.2.2.1 h⟩
    · rintro ⟨t, ht, h⟩
      exact ⟨t, ht, (key t ht).2.2.2.2 h⟩
  · have hw : d.WF := ⟨hdb.1, hdo.1, hdc, by rw [hdl]; exact zeroVec_length⟩
    obtain ⟨_, hv⟩ := productEntry_view d hw
    have key : ∀ t, t < numPartTypes →
        idx (productEntry d).pickupOrder t = min (idx d.pickupOrder t) (idx d.buffer t) ∧
          idx (productEntry d).localState t =
            idx d.pickupOrder t - idx (productEntry d).pickupOrder t ∧
          idx (productEntry d).cartState t =
            idx d.cartState t + idx (productEntry d).pickupOrder t ∧
          (productSplitFits t (d.view t) = false ↔ idx (productEntry d).localState t > 0) := by
      intro t ht
      have e := hv t ht
      have hb := hdb.2 t ht
      have ho := hdo.2 t ht
      simp only [ProductState.view, productCommitAt, productSplitAt, productSplitFits, hdl,
        idx_zeroVec] at e ⊢
      split at e
      · simp only [Prod.mk.injEq] at e
        obtain ⟨e1, e2, e3, e4⟩ := e
        rw [e2, e3, e4]
        refine ⟨?_, ?_, ?_, ?_⟩
        · rw [min_def]; split <;> omega
        · omega
        · omega
        · simp
      · simp only [Prod.mk.injEq] at e
        obtain ⟨e1, e2, e3, e4⟩ := e
        rw [e2, e3, e4]
        refine ⟨?_, ?_, ?_, ?_⟩
        · rw [min_def]; split <;> omega
        · omega
        · omega
        · simp; omega
    refine ⟨fun t ht => ⟨(key t ht).1, (key t ht).2.1, (key t ht).2.2.1⟩, ?_⟩
    rw [productEntry_canLoad d hw, all_range_false]
    constructor
    · rintro ⟨t, ht, h⟩
      exact ⟨t, ht, (key t ht).2.2.2.1 h⟩
    · rintro ⟨t, ht, h⟩
      exact ⟨t, ht, (key t ht).2.2.2.2 h⟩

theorem entry_split_accepts_min_witness :
    InBounds scenarioA.buffer ∧ NonNegVec scenarioA.loadOrder ∧
    scenarioA.unloadedParts = zeroVec ∧ InBounds scenarioB.buffer ∧
    NonNegVec scenarioB.pickupOrder ∧ scenarioB.localState = zeroVec ∧
    scenarioB.cartState.length = numPartTypes ∧
    ((∀ t, t < numPartTypes →
        idx (partEntry scenarioA).loadOrder t =
          min (idx scenarioA.loadOrder t) (idx bufferCapacities t - idx scenarioA.buffer t) ∧
        idx (partEntry scenarioA).unloadedParts t =
          idx scenarioA.loadOrder t - idx (partEntry scenarioA).loadOrder t ∧
        idx (partEntry scenarioA).buffer t =
          idx scenarioA.buffer t + idx (partEntry scenarioA).loadOrder t) ∧
      ((partEntry scenarioA).canLoad = false ↔
        ∃ t, t < numPartTypes ∧ idx (partEntry scenarioA).unloadedParts t > 0)) ∧
    ((∀ t, t < numPartTypes →
        idx (productEntry scenarioB).pickupOrder t =
          min (idx scenarioB.pickupOrder t) (idx scenarioB.buffer t) ∧
        idx (productEntry scenarioB).localState t =
          idx scenarioB.pickupOrder t - idx (productEntry scenarioB).pickupOrder t ∧
        idx (productEntry scenarioB).cartState t =
          idx scenarioB.cartState t + idx (productEntry scenarioB).pickupOrder t) ∧
      ((productEntry scenarioB).canLoad = false ↔
        ∃ t, t < numPartTypes ∧ idx (productEntry scenarioB).localState t > 0)) :=
  have h := entry_split_accepts_min scenarioA scenarioB (by decide) (by decide) (by decide)
    (by decide) (by decide) (by decide) (by decide)
  ⟨by decide, by decide, by decide, by decide, by decide, by decide, by decide, h.1, h.2.1⟩

/-! ## Wait predicate -/

/-- C5 fails on the code.  A waiting part worker with two unloaded parts of
type 0 and one free slot of type 0 (buffer `[4,0,0,0,0]`, capacity 5): one
evaluation of its wait predicate moves nothing, where
`min(R[0], available[0]) = 1`; the test of line 231 lets a type through only
when its whole remainder fits.  The sibling paths move the one unit: the
product worker's predicate with `R[0] = 2` and one part of type 0 in the
buffer takes that part, and the part worker's own entry step with two parts
to load and one free slot loads one. -/
theorem wait_predicate_part_all_or_nothing :
    InBounds partOneFreeSlot.buffer ∧
    idx partOneFreeSlot.unloadedParts 0 = 2 ∧
    idx bufferCapacities 0 - idx partOneFreeSlot.buffer 0 = 1 ∧
    (partWaitPredicate partOneFreeSlot).buffer = [4, 0, 0, 0, 0] ∧
    (partWaitPredicate partOneFreeSlot).unloadedParts = [2, 0, 0, 0, 0] ∧
    ¬ (idx (partWaitPredicate partOneFreeSlot).buffer 0 =
        idx partOneFreeSlot.buffer 0 +
          min (idx partOneFreeSlot.unloadedParts 0)
            (idx bufferCapacities 0 - idx partOneFreeSlot.buffer 0)) ∧
    (InBounds productOneInStock.buffer ∧
      idx productOneInStock.localState 0 = 2 ∧ idx productOneInStock.buffer 0 = 1 ∧
      (productWaitPredicate productOneInStock).buffer = [0, 0, 0, 0, 0] ∧
      (productWaitPredicate productOneInStock).localState = [1, 0, 0, 0, 0] ∧
      (productWaitPredicate productOneInStock).cartState = [2, 0, 0, 0, 0]) ∧
    (InBounds partEntryOneFreeSlot.buffer ∧
      idx partEntryOneFreeSlot.loadOrder 0 = 2 ∧
      (partEntry partEntryOneFreeSlot).buffer = [5, 0, 0, 0, 0] ∧
      (partEntry partEntryOneFreeSlot).unloadedParts = [1, 0, 0, 0, 0]) := by
  decide

/-- What one evaluation of each wait predicate does to a type `t` with
`R[t] > 0`, as the code stands: the product worker's predicate moves exactly
`min(R[t], buffer[t])` (the remainder and the buffer decrease by it, the cart
increases by it); the part worker's predicate moves all of `R[t]` when
`R[t] ≤ bufferCapacities[t] - buffer[t]` and otherwise leaves the type alone,
which is where it departs from the rule `min(R[t], available[t])`. -/
theorem wait_predicate_micro_transfer (p : PartState) (d : ProductState) (t : Nat)
    (ht : t < numPartTypes)
    (hpb : InBounds p.buffer) (hp : p.WF) (hpr : idx p.unloadedParts t > 0)
    (hdb : InBounds d.buffer) (hd : d.WF) (hdr : idx d.localState t > 0) :
    (idx (partWaitPredicate p).unloadedParts t =
        idx p.unloadedParts t -
          (if idx p.unloadedParts t ≤ idx bufferCapacities t - idx p.buffer t
            then idx p.unloadedParts t else 0) ∧
      idx (partWaitPredicate p).buffer t =
        idx p.buffer t +
          (if idx p.unloadedParts t ≤ idx bufferCapacities t - idx p.buffer t
            then idx p.unloadedParts t else 0)) ∧
    (idx (productWaitPredicate d).localState t =
        idx d.localState t - min (idx d.localState t) (idx d.buffer t) ∧
      idx (productWaitPredicate d).buffer t =
        idx d.buffer t - min (idx d.localState t) (idx d.buffer t) ∧
      idx (productWaitPredicate d).cartState t =
        idx d.cartState t + min (idx d.localState t) (idx d.buffer t)) := by
  have hb1 := hpb.2 t ht
  have hb2 := hdb.2 t ht
  constructor
  · have e := (partWaitPredicate_view p hp).2 t ht
    simp only [PartState.view, partWaitAt] at e
    split at e
    · simp only [Prod.mk.injEq] at e
      obtain ⟨e1, _, e3⟩ := e
      rw [e1, e3]
      constructor <;> split <;> omega
    · simp only [Prod.mk.injEq] at e
      obtain ⟨e1, _, e3⟩ := e
      rw [e1, e3]
      constructor <;> split <;> omega
  · have e := (productWaitPredicate_view d hd).2 t ht
    simp only [ProductState.view, productWaitAt] at e
    rw [min_def]
    split at e
    · split at e
      · simp only [Prod.mk.injEq] at e
        obtain ⟨e1, _, e3, e4⟩ := e
        rw [e1, e3, e4]
        split <;> omega
      · simp only [Prod.mk.injEq] at e
        obtain ⟨e1, _, e3, e4⟩ := e
        rw [e1, e3, e4]
        split <;> omega
    · simp only [Prod.mk.injEq] at e
      obtain ⟨e1, _, e3, e4⟩ := e
      rw [e1, e3, e4]
      split <;> omega

theorem wait_predicate_micro_transfer_witness :
    4 < numPartTypes ∧ InBounds partTwoFit.buffer ∧ partTwoFit.WF ∧
    idx partTwoFit.unloadedParts 4 > 0 ∧ InBounds productShortOfTwo.buffer ∧
    productShortOfTwo.WF ∧ idx productShortOfTwo.localState 4 > 0 ∧
    (idx (partWaitPredicate partTwoFit).unloadedParts 4 = 0 ∧
      idx (partWaitPredicate partTwoFit).buffer 4 = 3) ∧
    (idx (productWaitPredicate productShortOfTwo).localState 4 = 1 ∧
      idx (productWaitPredicate productShortOfTwo).buffer 4 = 0 ∧
      idx (productWaitPredicate productShortOfTwo).cartState 4 = 1) :=
  have h := wait_predicate_micro_transfer partTwoFit productShortOfTwo 4 (by decide)
    (by decide) (by decide) (by decide) (by decide) (by decide) (by decide)
  ⟨by decide, by decide, by decide, by decide, by decide, by decide, by decide, h.1, h.2⟩



/-! ## Timeout -/

/-- C6 (rollback on timeout).  For either role and a non-negative remainder
`R`, `moveUnloadedPartsToLoad` / `moveLocalToPickup` makes the order vector
exactly `R`, whatever it held before, resets the remainder to all-zero and
leaves the buffer (and the product worker's `cartState`) unchanged.  Scenario
C: the remainder `[0,0,0,0,2]` becomes the next opening order. -/
theorem timeout_rolls_remainder_forward (p : PartState) (d : ProductState)
    (hpb : p.buffer.length = numPartTypes) (hpr : NonNegVec p.unloadedParts)
    (hdb : d.buffer.length = numPartTypes) (hdc : d.cartState.length = numPartTypes)
    (hdr : NonNegVec d.localState) :
    ((moveUnloadedPartsToLoad p).loadOrder = p.unloadedParts ∧
      (moveUnloadedPartsToLoad p).unloadedParts = zeroVec ∧
      (moveUnloadedPartsToLoad p).buffer = p.buffer) ∧
    ((moveLocalToPickup d).pickupOrder = d.localState ∧
      (moveLocalToPickup d).localState = zeroVec ∧
      (moveLocalToPickup d).buffer = d.buffer ∧
      (moveLocalToPickup d).cartState = d.cartState) := by
  constructor
  · obtain ⟨⟨w1, w2, w3⟩, v⟩ := moveUnloadedPartsToLoad_view p hpb hpr.1
    have key : ∀ t, t < numPartTypes →
        idx (moveUnloadedPartsToLoad p).loadOrder t = idx p.unloadedParts t ∧
        idx (moveUnloadedPartsToLoad p).unloadedParts t = 0 ∧
        idx (moveUnloadedPartsToLoad p).buffer t = idx p.buffer t := by
      intro t ht
      have e := v t ht
      have hr := hpr.2 t ht
      simp only [PartState.view, moveUnloadedAt] at e
      split at e
      · simp only [Prod.mk.injEq] at e
        obtain ⟨e1, e2, e3⟩ := e
        rw [e1, e2, e3]
        omega
      · simp only [Prod.mk.injEq] at e
        obtain ⟨e1, e2, e3⟩ := e
        rw [e1, e2, e3]
        omega
    refine ⟨vec_ext _ _ (by rw [w2, hpr.1]) ?_, vec_ext _ _ (by rw [w3, zeroVec_length]) ?_,
      vec_ext _ _ (by rw [w1, hpb]) ?_⟩
    · intro t ht
      exact (key t (by omega)).1
    · intro t ht
      rw [idx_zeroVec]
      exact (key t (by omega)).2.1
    · intro t ht
      exact (key t (by omega)).2.2
  · obtain ⟨⟨w1, w2, w3, w4⟩, v⟩ := moveLocalToPickup_view d hdb hdc hdr.1
    have key : ∀ t, t < numPartTypes →
        idx (moveLocalToPickup d).pickupOrder t = idx d.localState t ∧
        idx (moveLocalToPickup d).localState t = 0 ∧
        idx (moveLocalToPickup d).buffer t = idx d.buffer t ∧
        idx (moveLocalToPickup d).cartState t = idx d.cartState t := by
      intro t ht
      have e := v t ht
      have hr := hdr.2 t ht
      simp only [ProductState.view, moveLocalAt] at e
      split at e
      · simp only [Prod.mk.injEq] at e
        obtain ⟨e1, e2, e3, e4⟩ := e
        rw [e1, e2, e3, e4]
        omega
      · simp only [Prod.mk.injEq] at e
        obtain ⟨e1, e2, e3, e4⟩ := e
        rw [e1, e2, e3, e4]
        omega
    refine ⟨vec_ext _ _ (by rw [w2, hdr.1]) ?_, vec_ext _ _ (by rw [w4, zeroVec_length]) ?_,
      vec_ext _ _ (by rw [w1, hdb]) ?_, vec_ext _ _ (by rw [w3, hdc]) ?_⟩
    · intro t ht
      exact (key t (by omega)).1
    · intro t ht
      rw [idx_zeroVec]
      exact (key t (by omega)).2.1
    · intro t ht
      exact (key t (by omega)).2.2.1
    · intro t ht
      exact (key t (by omega)).2.2.2

theorem timeout_rolls_remainder_forward_witness :
    partTimedOut.buffer.length = numPartTypes ∧ NonNegVec partTimedOut.unloadedParts ∧
    scenarioC.buffer.length = numPartTypes ∧ scenarioC.cartState.length = numPartTypes ∧
    NonNegVec scenarioC.localState ∧ scenarioC.localState = [0, 0, 0, 0, 2] ∧
    ((moveUnloadedPartsToLoad partTimedOut).loadOrder = [0, 0, 0, 0, 2] ∧
      (moveUnloadedPartsToLoad partTimedOut).unloadedParts = zeroVec ∧
      (moveUnloadedPartsToLoad partTimedOut).buffer = [5, 0, 0, 0, 3]) ∧
    ((moveLocalToPickup scenarioC).pickupOrder = [0, 0, 0, 0, 2] ∧
      (moveLocalToPickup scenarioC).localState = zeroVec ∧
      (moveLocalToPickup scenarioC).buffer = scenarioC.buffer ∧
      (moveLocalToPickup scenarioC).cartState = [3, 0, 0, 0, 0]) :=
  have h := timeout_rolls_remainder_forward partTimedOut scenarioC (by decide) (by decide)
    (by decide) (by decide) (by decide)
  ⟨by decide, by decide, by decide, by decide, by decide, by decide, h.1, h.2⟩

/-! ## Defects of the code, evaluated -/

/-- C2 fails on the code.  Scenario B: buffer `[5,0,0,0,0]`, pickup order
`[3,0,0,0,2]`, empty cart.  The entry step of the product worker adds the
accepted `[3,0,0,0,0]` to the cart and leaves the buffer at `[5,0,0,0,0]`, so
`buffer[0] + cartState[0]` goes from 5 to 8: three parts are created.  The
same happens with the generated order `[3,2,0,0,0]` against the buffer
`[3,0,0,0,0]`: the sum for type 0 goes from 3 to 6. -/
theorem product_entry_keeps_buffer :
    InBounds scenarioB.buffer ∧
    (productEntry scenarioB).pickupOrder = [3, 0, 0, 0, 0] ∧
    (productEntry scenarioB).cartState = [3, 0, 0, 0, 0] ∧
    (productEntry scenarioB).buffer = [5, 0, 0, 0, 0] ∧
    idx (productEntry scenarioB).buffer 0 + idx (productEntry scenarioB).cartState 0 ≠
      idx scenarioB.buffer 0 + idx scenarioB.cartState 0 ∧
    (InBounds shortOfTypeOne.buffer ∧
      generatePickupOrder (randOf [0, 2, 1]) [0, 0, 0, 0, 0] = some shortOfTypeOne.pickupOrder ∧
      (productEntry shortOfTypeOne).cartState = [3, 0, 0, 0, 0] ∧
      (productEntry shortOfTypeOne).buffer = [3, 0, 0, 0, 0] ∧
      idx (productEntry shortOfTypeOne).buffer 0 +
          idx (productEntry shortOfTypeOne).cartState 0 ≠
        idx shortOfTypeOne.buffer 0 + idx shortOfTypeOne.cartState 0) := by
  decide

/-- C4 fails on the code.  A product worker with remainder `[0,0,0,0,2]`
against a buffer holding two parts of type 4: one evaluation of the predicate
absorbs the whole remainder, yet it returns false and does not notify,
because the types whose remainder is already zero clear `allTypesMoved`.  The
same happens to a part worker with remainder `[0,0,0,0,2]` that fits, and to
the product worker `shortOfTypeOne` once the two parts of type 1 it waits for
have arrived. -/
theorem wait_predicate_absorbed_not_resolved :
    (InBounds scenarioBSupplied.buffer ∧ NonNegVec scenarioBSupplied.localState ∧
      scenarioBSupplied.localState ≠ zeroVec ∧
      (productWaitPredicate scenarioBSupplied).localState = zeroVec ∧
      (productWaitPredicate scenarioBSupplied).cartState = [3, 0, 0, 0, 2] ∧
      (productWaitPredicate scenarioBSupplied).allTypesMoved = false ∧
      (productWaitPredicate scenarioBSupplied).notifyCount = scenarioBSupplied.notifyCount) ∧
    (InBounds partTwoFit.buffer ∧ NonNegVec partTwoFit.unloadedParts ∧
      partTwoFit.unloadedParts ≠ zeroVec ∧
      (partWaitPredicate partTwoFit).unloadedParts = zeroVec ∧
      (partWaitPredicate partTwoFit).buffer = [5, 0, 0, 0, 3] ∧
      (partWaitPredicate partTwoFit).allTypesMoved = false ∧
      (partWaitPredicate partTwoFit).notifyCount = partTwoFit.notifyCount) ∧
    (InBounds shortOfTypeOneSupplied.buffer ∧ NonNegVec shortOfTypeOneSupplied.localState ∧
      (productEntry shortOfTypeOne).localState = shortOfTypeOneSupplied.localState ∧
      shortOfTypeOneSupplied.localState ≠ zeroVec ∧
      (productWaitPredicate shortOfTypeOneSupplied).localState = zeroVec ∧
      (productWaitPredicate shortOfTypeOneSupplied).cartState = [3, 2, 0, 0, 0] ∧
      (productWaitPredicate shortOfTypeOneSupplied).allTypesMoved = false ∧
      (productWaitPredicate shortOfTypeOneSupplied).notifyCount =
        shortOfTypeOneSupplied.notifyCount) := by
  decide



/-! ## The bounds invariant -/

theorem partEntry_safe (s : PartState) (hw : s.WF) (hb : InBounds s.buffer)
    (ho : NonNegVec s.loadOrder) (hu : NonNegVec s.unloadedParts) :
    (partEntry s).WF ∧ InBounds (partEntry s).buffer ∧
      NonNegVec (partEntry s).unloadedParts := by
  obtain ⟨w, v⟩ := partEntry_view s hw
  have key : ∀ t, t < numPartTypes →
      (0 ≤ idx (partEntry s).buffer t ∧ idx (partEntry s).buffer t ≤ idx bufferCapacities t) ∧
        0 ≤ idx (partEntry s).unloadedParts t := by
    intro t ht
    have e := v t ht
    have h1 := hb.2 t ht
    have h2 := ho.2 t ht
    have h3 := hu.2 t ht
    simp only [PartState.view, partCommitAt, partSplitAt] at e
    split at e
    · simp only [Prod.mk.injEq] at e
      obtain ⟨e1, _, e3⟩ := e
      rw [e1, e3]
      omega
    · simp only [Prod.mk.injEq] at e
      obtain ⟨e1, _, e3⟩ := e
      rw [e1, e3]
      omega
  exact ⟨w, ⟨w.1, fun t ht => (key t ht).1⟩, ⟨w.2.2, fun t ht => (key t ht).2⟩⟩

theorem partWaitPredicate_safe (s : PartState) (hw : s.WF) (hb : InBounds s.buffer)
    (hu : NonNegVec s.unloadedParts) :
    (partWaitPredicate s).WF ∧ InBounds (partWaitPredicate s).buffer ∧
      NonNegVec (partWaitPredicate s).unloadedParts := by
  obtain ⟨w, v⟩ := partWaitPredicate_view s hw
  have key : ∀ t, t < numPartTypes →
      (0 ≤ idx (partWaitPredicate s).buffer t ∧
        idx (partWaitPredicate s).buffer t ≤ idx bufferCapacities t) ∧
        0 ≤ idx (partWaitPredicate s).unloadedParts t := by
    intro t ht
    have e := v t ht
    have h1 := hb.2 t ht
    have h3 := hu.2 t ht
    simp only [PartState.view, partWaitAt] at e
    split at e
    · simp only [Prod.mk.injEq] at e
      obtain ⟨e1, _, e3⟩ := e
      rw [e1, e3]
      omega
    · simp only [Prod.mk.injEq] at e
      obtain ⟨e1, _, e3⟩ := e
      rw [e1, e3]
      omega
  exact ⟨w, ⟨w.1, fun t ht => (key t ht).1⟩, ⟨w.2.2, fun t ht => (key t ht).2⟩⟩

theorem moveUnloadedPartsToLoad_safe (s : PartState) (hb : InBounds s.buffer)
    (hu : NonNegVec s.unloadedParts) :
    (moveUnloadedPartsToLoad s).WF ∧ InBounds (moveUnloadedPartsToLoad s).buffer ∧
      NonNegVec (moveUnloadedPartsToLoad s).unloadedParts := by
  obtain ⟨w, v⟩ := moveUnloadedPartsToLoad_view s hb.1 hu.1
  have key : ∀ t, t < numPartTypes →
      (0 ≤ idx (moveUnloadedPartsToLoad s).buffer t ∧
        idx (moveUnloadedPartsToLoad s).buffer t ≤ idx bufferCapacities t) ∧
        0 ≤ idx (moveUnloadedPartsToLoad s).unloadedParts t := by
    intro t ht
    have e := v t ht
    have h1 := hb.2 t ht
    have h3 := hu.2 t ht
    simp only [PartState.view, moveUnloadedAt] at e
    split at e
    · simp only [Prod.mk.injEq] at e
      obtain ⟨e1, _, e3⟩ := e
      rw [e1, e3]
      omega
    · simp only [Prod.mk.injEq] at e
      obtain ⟨e1, _, e3⟩ := e
      rw [e1, e3]
      omega
  exact ⟨w, ⟨w.1, fun t ht => (key t ht).1⟩, ⟨w.2.2, fun t ht => (key t ht).2⟩⟩

theorem productEntry_safe (s : ProductState) (hw : s.WF) (hb : InBounds s.buffer)
    (hu : NonNegVec s.localState) :
    (productEntry s).WF ∧ InBounds (productEntry s).buffer ∧
      NonNegVec (productEntry s).localState := by
  obtain ⟨w, v⟩ := productEntry_view s hw
  have key : ∀ t, t < numPartTypes →
      (0 ≤ idx (productEntry s).buffer t ∧
        idx (productEntry s).buffer t ≤ idx bufferCapacities t) ∧
        0 ≤ idx (productEntry s).localState t := by
    intro t ht
    have e := v t ht
    have h1 := hb.2 t ht
    have h3 := hu.2 t ht
    simp only [ProductState.view, productCommitAt, productSplitAt] at e
    split at e
    · simp only [Prod.mk.injEq] at e
      obtain ⟨e1, _, _, e4⟩ := e
      rw [e1, e4]
      omega
    · simp only [Prod.mk.injEq] at e
      obtain ⟨e1, _, _, e4⟩ := e
      rw [e1, e4]
      omega
  exact ⟨w, ⟨w.1, fun t ht => (key t ht).1⟩, ⟨w.2.2.2, fun t ht => (key t ht).2⟩⟩

theorem productWaitPredicate_safe (s : ProductState) (hw : s.WF) (hb : InBounds s.buffer)
    (hu : NonNegVec s.localState) :
    (productWaitPredicate s).WF ∧ InBounds (productWaitPredicate s).buffer ∧
      NonNegVec (productWaitPredicate s).localState := by
  obtain ⟨w, v⟩ := productWaitPredicate_view s hw
  have key : ∀ t, t < numPartTypes →
      (0 ≤ idx (productWaitPredicate s).buffer t ∧
        idx (productWaitPredicate s).buffer t ≤ idx bufferCapacities t) ∧
        0 ≤ idx (productWaitPredicate s).localState t := by
    intro t ht
    have e := v t ht
    have h1 := hb.2 t ht
    have h3 := hu.2 t ht
    simp only [ProductState.view, productWaitAt] at e
    split at e
    · split at e
      · simp only [Prod.mk.injEq] at e
        obtain ⟨e1, _, _, e4⟩ := e
        rw [e1, e4]
        omega
      · simp only [Prod.mk.injEq] at e
        obtain ⟨e1, _, _, e4⟩ := e
        rw [e1, e4]
        omega
    · simp only [Prod.mk.injEq] at e
      obtain ⟨e1, _, _, e4⟩ := e
      rw [e1, e4]
      omega
  exact ⟨w, ⟨w.1, fun t ht => (key t ht).1⟩, ⟨w.2.2.2, fun t ht => (key t ht).2⟩⟩

theorem moveLocalToPickup_safe (s : ProductState) (hb : InBounds s.buffer)
    (hc : s.cartState.length = numPartTypes) (hu : NonNegVec s.localState) :
    (moveLocalToPickup s).WF ∧ InBounds (moveLocalToPickup s).buffer ∧
      NonNegVec (moveLocalToPickup s).localState := by
  obtain ⟨w, v⟩ := moveLocalToPickup_view s hb.1 hc hu.1
  have key : ∀ t, t < numPartTypes →
      (0 ≤ idx (moveLocalToPickup s).buffer t ∧
        idx (moveLocalToPickup s).buffer t ≤ idx bufferCapacities t) ∧
        0 ≤ idx (moveLocalToPickup s).localState t := by
    intro t ht
    have e := v t ht
    have h1 := hb.2 t ht
    have h3 := hu.2 t ht
    simp only [ProductState.view, moveLocalAt] at e
    split at e
    · simp only [Prod.mk.injEq] at e
      obtain ⟨e1, _, _, e4⟩ := e
      rw [e1, e4]
      omega
    · simp only [Prod.mk.injEq] at e
      obtain ⟨e1, _, _, e4⟩ := e
      rw [e1, e4]
      omega
  exact ⟨w, ⟨w.1, fun t ht => (key t ht).1⟩, ⟨w.2.2.2, fun t ht => (key t ht).2⟩⟩



theorem putPart_inv (sys : System) (w : Nat) (s : PartState) (h : sys.Inv)
    (hs : s.WF ∧ InBounds s.buffer ∧ NonNegVec s.unloadedParts) : (sys.putPart w s).Inv := by
  obtain ⟨_, hp, hd⟩ := h
  refine ⟨hs.2.1, ?_, hd⟩
  intro l hl
  rcases List.mem_or_eq_of_mem_set hl with h1 | h1
  · exact hp l h1
  · subst h1
    exact ⟨hs.1.2.1, hs.2.2⟩

theorem putProduct_inv (sys : System) (w : Nat) (s : ProductState) (h : sys.Inv)
    (hs : s.WF ∧ InBounds s.buffer ∧ NonNegVec s.localState) : (sys.putProduct w s).Inv := by
  obtain ⟨_, hp, hd⟩ := h
  refine ⟨hs.2.1, hp, ?_⟩
  intro l hl
  rcases List.mem_or_eq_of_mem_set hl with h1 | h1
  · exact hd l h1
  · subst h1
    exact ⟨hs.1.2.1, hs.1.2.2.1, hs.2.2⟩

theorem start_inv (m n : Nat) : (System.start m n).Inv := by
  have hz : NonNegVec zeroVec := ⟨zeroVec_length, fun t _ => by rw [idx_zeroVec]⟩
  refine ⟨(by decide : InBounds zeroVec), ?_, ?_⟩
  · intro l hl
    rw [System.start, List.mem_replicate] at hl
    rw [hl.2]
    exact ⟨zeroVec_length, hz⟩
  · intro l hl
    rw [System.start, List.mem_replicate] at hl
    rw [hl.2]
    exact ⟨zeroVec_length, zeroVec_length, hz⟩

theorem step_inv (sys : System) (a : Action) (h : sys.Inv) (ha : a.OrderNonNeg) :
    (sys.step a).Inv := by
  cases a with
  | partEntry w order =>
    simp only [System.step]
    split
    · exact h
    · next l hl =>
      have hm := h.2.1 l (List.getElem?_mem hl)
      exact putPart_inv sys w _ h
        (partEntry_safe _ ⟨h.1.1, ha.1, hm.2.1⟩ h.1 ha hm.2)
  | partWait w =>
    simp only [System.step]
    split
    · exact h
    · next l hl =>
      have hm := h.2.1 l (List.getElem?_mem hl)
      exact putPart_inv sys w _ h
        (partWaitPredicate_safe _ ⟨h.1.1, hm.1, hm.2.1⟩ h.1 hm.2)
  | partTimeout w =>
    simp only [System.step]
    split
    · exact h
    · next l hl =>
      have hm := h.2.1 l (List.getElem?_mem hl)
      exact putPart_inv sys w _ h (moveUnloadedPartsToLoad_safe _ h.1 hm.2)
  | productEntry w order =>
    simp only [System.step]
    split
    · exact h
    · next l hl =>
      have hm := h.2.2 l (List.getElem?_mem hl)
      exact putProduct_inv sys w _ h
        (productEntry_safe _ ⟨h.1.1, ha.1, hm.2.1, hm.2.2.1⟩ h.1 hm.2.2)
  | productWait w =>
    simp only [System.step]
    split
    · exact h
    · next l hl =>
      have hm := h.2.2 l (List.getElem?_mem hl)
      exact putProduct_inv sys w _ h
        (productWaitPredicate_safe _ ⟨h.1.1, hm.1, hm.2.1, hm.2.2.1⟩ h.1 hm.2.2)
  | productTimeout w =>
    simp only [System.step]
    split
    · exact h
    · next l hl =>
      have hm := h.2.2 l (List.getElem?_mem hl)
      exact putProduct_inv sys w _ h (moveLocalToPickup_safe _ h.1 hm.2.1 hm.2.2)

theorem run_inv (acts : List Action) (sys : System) (h : sys.Inv)
    (ha : ∀ a ∈ acts, a.OrderNonNeg) : (sys.run acts).Inv := by
  induction acts generalizing sys with
  | nil => exact h
  | cons a rest ih =>
    have h1 := step_inv sys a h (ha a (List.mem_cons_self _ _))
    exact ih (sys.step a) h1 (fun b hb => ha b (List.mem_cons_of_mem _ hb))

/-- C1 (bounds invariant of the shared buffer).  From the all-zero buffer, for
any number of part workers and product workers and any interleaving of their
atomic steps (entry split-and-commit, evaluation of the wait predicate and
timeout rollback of either role), every generated order having non-negative
entries, after every step each type satisfies
`0 ≤ buffer[t] ≤ bufferCapacities[t]`. -/
theorem buffer_bounds_invariant (m n : Nat) (acts : List Action)
    (ha : ∀ a ∈ acts, a.OrderNonNeg) (k : Nat) :
    ∀ t, t < numPartTypes →
      0 ≤ idx ((System.start m n).run (acts.take k)).buffer t ∧
        idx ((System.start m n).run (acts.take k)).buffer t ≤ idx bufferCapacities t :=
  (run_inv (acts.take k) (System.start m n) (start_inv m n)
    (fun a h => ha a (List.mem_of_mem_take h))).1.2

set_option maxRecDepth 100000 in
theorem buffer_bounds_invariant_witness :
    (∀ a ∈ sampleRun, a.OrderNonNeg) ∧
    ((System.start 2 1).run (sampleRun.take 5)).buffer = [5, 0, 0, 3, 0] ∧
    ∀ t, t < numPartTypes →
      0 ≤ idx ((System.start 2 1).run (sampleRun.take 5)).buffer t ∧
        idx ((System.start 2 1).run (sampleRun.take 5)).buffer t ≤ idx bufferCapacities t :=
  ⟨by decide, by decide, buffer_bounds_invariant 2 1 sampleRun (by decide) 5⟩

/-! ## Order generators -/

theorem idx_eq_getElem (l : List Int) (t : Nat) (h : t < l.length) : idx l t = l[t] := by
  simp [idx, List.getD_eq_getElem?_getD, List.getElem?_eq_getElem h]

theorem idx_nonneg_of_mem (l : List Int) (h : ∀ x ∈ l, 0 ≤ x) (t : Nat) : 0 ≤ idx l t := by
  by_cases ht : t < l.length
  · rw [idx_eq_getElem l t ht]
    exact h _ (List.getElem_mem ht)
  · simp [idx, List.getD_eq_getElem?_getD, List.getElem?_eq_none (not_lt.mp ht)]

theorem mem_nonneg_of_idx (l : List Int) (h : ∀ t, t < l.length → 0 ≤ idx l t) :
    ∀ x ∈ l, 0 ≤ x := by
  intro x hx
  obtain ⟨n, hn, rfl⟩ := List.getElem_of_mem hx
  rw [← idx_eq_getElem l n hn]
  exact h n hn

theorem sum_set_idx (l : List Int) (i : Nat) (x : Int) (h : i < l.length) :
    (l.set i x).sum = l.sum - idx l i + x := by
  induction l generalizing i with
  | nil => simp at h
  | cons a l ih =>
    cases i with
    | zero => simp [idx]; omega
    | succ i =>
      have h1 : i < l.length := by simpa using h
      have := ih i h1
      simp only [List.set_cons_succ, List.sum_cons, this]
      simp only [idx, List.getD_cons_succ]
      omega

theorem sum_take_succ (v : List Int) (n : Nat) :
    (v.take (n + 1)).sum = (v.take n).sum + idx v n := by
  rw [List.take_succ, List.sum_append]
  congr 1
  unfold idx
  rw [List.getD_eq_getElem?_getD]
  cases v[n]? <;> simp

theorem pickupCount_loop (v : List Int) (c : PickupCount) (n : Nat) :
    (forLoop n (pickupCountStep v) c).sum = c.sum + (v.take n).sum ∧
      c.numNonZeroFromLocal ≤ (forLoop n (pickupCountStep v) c).numNonZeroFromLocal := by
  induction n with
  | zero => simp [forLoop_zero]
  | succ n ih =>
    rw [forLoop_succ, sum_take_succ]
    generalize forLoop n (pickupCountStep v) c = c1 at ih ⊢
    unfold pickupCountStep
    split
    · simp only []
      omega
    · next h =>
      have h0 : idx v n = 0 := by simpa using h
      omega

theorem pickupFill_terminates (rand : Nat → Nat) (maxNonZeroElements : Int)
    (hmax : maxNonZeroElements ≤ 3) (fuel : Nat) (s : PickupFill)
    (hs : FillInv maxNonZeroElements s) (hfuel : s.remainingElements ≤ fuel) :
    ∃ r, pickupFill rand fuel s = some r ∧ FillInv maxNonZeroElements r := by
  induction fuel generalizing s with
  | zero =>
    refine ⟨s, ?_, hs⟩
    unfold pickupFill
    have : ¬ (s.remainingSpace > 0 ∧ s.remainingElements > 0) := by
      simp at hfuel
      omega
    simp [this]
  | succ fuel ih =>
    unfold pickupFill
    split
    · next hc =>
      obtain ⟨h1, h2, h3, h4, h5, h6⟩ := hs
      have hr1 : 0 ≤ (rand s.calls : Int) % s.remainingSpace :=
        Int.emod_nonneg _ (by omega)
      have hr2 : (rand s.calls : Int) % s.remainingSpace < s.remainingSpace :=
        Int.emod_lt_of_pos _ hc.1
      have hi : 0 ≤ s.i ∧ s.i < (s.pickupOrder.length : Int) := by
        rw [h1]
        simp only [numPartTypes]
        omega
      have hin : s.i.toNat < s.pickupOrder.length := by omega
      simp only [writeAt, hi, and_self, if_true]
      apply ih
      · refine ⟨by simpa using h1, ?_, ?_, ?_, ?_, ?_⟩
        · intro x hx
          rcases List.mem_or_eq_of_mem_set hx with h | h
          · exact h2 x h
          · rw [h]
            simp only [min_def]
            split <;> omega
        · simp only [min_def]
          split <;> omega
        · simp only [sum_set_idx _ _ _ hin]
          have := idx_nonneg_of_mem _ h2 s.i.toNat
          omega
        · simp only []
          omega
        · simp only []
          omega
      · simp only []
        push_cast at hfuel
        omega
    · exact ⟨s, rfl, hs⟩



/-- C7 (`generatePickupOrder` yields a valid batch).  For every opening vector
of 5 non-negative entries with sum at most 5, for both values of
`maxNonZeroElements` and every outcome of `rand()`, the function returns (no
access is out of the range 0..4 and the `while` loop ends) a pickup order of
5 non-negative entries with sum exactly 5. -/
theorem generatePickupOrder_valid (rand : Nat → Nat) (opening : List Int)
    (ho : NonNegVec opening) (hs : opening.sum ≤ 5) :
    ∃ r, generatePickupOrder rand opening = some r ∧ r.length = numPartTypes ∧
      r.sum = 5 ∧ ∀ t, t < numPartTypes → 0 ≤ idx r t := by
  obtain ⟨hc1, hc2⟩ :=
    pickupCount_loop opening { sum := 0, numNonZeroFromLocal := 0 } numPartTypes
  have htake : opening.take numPartTypes = opening := by
    rw [← ho.1]
    exact List.take_length opening
  rw [htake] at hc1
  simp only [zero_add] at hc1
  have hmem := mem_nonneg_of_idx opening (by rw [ho.1]; exact ho.2)
  have hmax : (2 : Int) + (rand 0 : Int) % 2 ≤ 3 := by omega
  have hmax2 : (2 : Int) ≤ 2 + (rand 0 : Int) % 2 := by omega
  obtain ⟨r, hr, h1, h2, h3, h4, h5, h6⟩ := pickupFill_terminates rand
    (2 + (rand 0 : Int) % 2) hmax
    (2 + (rand 0 : Int) % 2 -
      (forLoop numPartTypes (pickupCountStep opening)
        { sum := 0, numNonZeroFromLocal := 0 }).numNonZeroFromLocal).toNat
    { pickupOrder := opening
      i := (forLoop numPartTypes (pickupCountStep opening)
        { sum := 0, numNonZeroFromLocal := 0 }).numNonZeroFromLocal
      remainingSpace := 5 - (forLoop numPartTypes (pickupCountStep opening)
        { sum := 0, numNonZeroFromLocal := 0 }).sum
      remainingElements := 2 + (rand 0 : Int) % 2 -
        (forLoop numPartTypes (pickupCountStep opening)
          { sum := 0, numNonZeroFromLocal := 0 }).numNonZeroFromLocal
      calls := 1 }
    ⟨ho.1, hmem, by simp only []; omega, by simp only []; omega, hc2, by simp only []; omega⟩
    (Int.self_le_toNat _)
  unfold generatePickupOrder
  simp only [hr]
  split
  · next hne =>
    have hi : 0 ≤ (2 : Int) + (rand 0 : Int) % 2 - 1 ∧
        (2 : Int) + (rand 0 : Int) % 2 - 1 < (r.pickupOrder.length : Int) := by
      rw [h1]
      simp only [numPartTypes]
      omega
    have hin : ((2 : Int) + (rand 0 : Int) % 2 - 1).toNat < r.pickupOrder.length := by omega
    simp only [writeAt, hi, and_self, if_true]
    refine ⟨_, rfl, by simpa using h1, ?_, fun t _ => idx_nonneg_of_mem _ ?_ t⟩
    · rw [sum_set_idx _ _ _ hin]
      omega
    · intro x hx
      rcases List.mem_or_eq_of_mem_set hx with h | h
      · exact h2 x h
      · have := idx_nonneg_of_mem _ h2 ((2 : Int) + (rand 0 : Int) % 2 - 1).toNat
        rw [h]
        omega
  · next heq =>
    refine ⟨_, rfl, h1, by simpa using heq, fun t _ => idx_nonneg_of_mem _ h2 t⟩

theorem generatePickupOrder_valid_witness :
    NonNegVec [0, 0, 0, 0, 2] ∧ ([0, 0, 0, 0, 2] : List Int).sum ≤ 5 ∧
    generatePickupOrder (randOf [1, 0, 0]) [0, 0, 0, 0, 2] = some [0, 1, 2, 0, 2] ∧
    ∃ r, generatePickupOrder (randOf [1, 0, 0]) [0, 0, 0, 0, 2] = some r ∧
      r.length = numPartTypes ∧ r.sum = 5 ∧ ∀ t, t < numPartTypes → 0 ≤ idx r t :=
  ⟨by decide, by decide, by decide,
    generatePickupOrder_valid (randOf [1, 0, 0]) [0, 0, 0, 0, 2] (by decide)
      (by decide)⟩



/-- C8 fails on the code.  From the all-zero load order, when every draw is 0
the result is all-zero (sum 0), and with the draws `1,1,1,1,0` the result is
`[1,1,1,1,0]` (sum 4): nothing tops the order up to 5 after the loop. -/
theorem generateCombination_short_batch :
    (∀ i, i < 5 → 0 ≤ drawOf [0, 0, 0, 0, 0] i ∧
      drawOf [0, 0, 0, 0, 0] i ≤ idx bufferCapacities i) ∧
    generateCombination (drawOf [0, 0, 0, 0, 0]) [0, 0, 0, 0, 0] = [0, 0, 0, 0, 0] ∧
    (generateCombination (drawOf [0, 0, 0, 0, 0]) [0, 0, 0, 0, 0]).sum ≠ 5 ∧
    (∀ i, i < 5 → 0 ≤ drawOf [1, 1, 1, 1, 0] i ∧
      drawOf [1, 1, 1, 1, 0] i ≤ idx bufferCapacities i) ∧
    generateCombination (drawOf [1, 1, 1, 1, 0]) [0, 0, 0, 0, 0] = [1, 1, 1, 1, 0] ∧
    (generateCombination (drawOf [1, 1, 1, 1, 0]) [0, 0, 0, 0, 0]).sum ≠ 5 := by
  decide

/-- C9 fails on the code.  The pickup order `[3,2,0,0,0]` is generated from a
fresh order; against the buffer `[3,0,0,0,0]` it times out with the remainder
`[0,2,0,0,0]`, which becomes the opening order.  With `maxNonZeroElements = 3`
and both draws equal to 1 the next pickup order is `[0,1,4,0,0]`: the `while`
loop starts writing at index `numNonZeroFromLocal = 1` and overwrites the
carried 2 parts of type 1 by 1. -/
theorem generatePickupOrder_drops_remainder :
    generatePickupOrder (randOf [0, 2, 1]) [0, 0, 0, 0, 0] = some shortOfTypeOne.pickupOrder ∧
    (moveLocalToPickup (productEntry shortOfTypeOne)).pickupOrder = [0, 2, 0, 0, 0] ∧
    NonNegVec [0, 2, 0, 0, 0] ∧ ([0, 2, 0, 0, 0] : List Int).sum ≤ 5 ∧
    generatePickupOrder (randOf [1, 0, 0]) [0, 2, 0, 0, 0] = some [0, 1, 4, 0, 0] ∧
    idx [0, 1, 4, 0, 0] 1 < idx [0, 2, 0, 0, 0] 1 := by
  decide

/-- C10 fails on the code.  From the all-zero opening order, with
`maxNonZeroElements = 2` and a first draw of 5, the `while` loop stops after
one write and the pickup order is `[5,0,0,0,0]`: one non-zero entry. -/
theorem generatePickupOrder_single_type :
    generatePickupOrder (randOf [0, 4]) [0, 0, 0, 0, 0] = some [5, 0, 0, 0, 0] ∧
    countNonZero [5, 0, 0, 0, 0] = 1 ∧
    ¬ (countNonZero [5, 0, 0, 0, 0] = 2 ∨ countNonZero [5, 0, 0, 0, 0] = 3) := by
  decide

/-! ## Relocation cost on timeout -/

/-- C11 fails on the code.  With the leftover `[0,0,0,0,2]` both timeout
lambdas compute `transferTime = moveTimes[4] + 2 = 42`, where the per-unit
cost gives `moveTimes[4] * 2 = 80`; doubling the leftover to `[0,0,0,0,4]`
gives 44, not twice 42.  The move time of the entry step is the product
`moveTimes[i] * loadOrder[i]` (100 for the order `[5,0,0,0,0]`). -/
theorem timeout_transfer_time_adds :
    NonNegVec partTimedOut.unloadedParts ∧
    partTimedOut.unloadedParts = [0, 0, 0, 0, 2] ∧
    (moveUnloadedPartsToLoad partTimedOut).transferTime = 42 ∧
    moveTimeOf partTimedOut.unloadedParts = 80 ∧
    scenarioC.localState = [0, 0, 0, 0, 2] ∧
    (moveLocalToPickup scenarioC).transferTime = 42 ∧
    moveTimeOf scenarioC.localState = 80 ∧
    partTimedOutTwice.unloadedParts = [0, 0, 0, 0, 4] ∧
    (moveUnloadedPartsToLoad partTimedOutTwice).transferTime = 44 ∧
    (moveUnloadedPartsToLoad partTimedOutTwice).transferTime ≠
      2 * (moveUnloadedPartsToLoad partTimedOut).transferTime ∧
    (partEntry scenarioA).moveTime = moveTimeOf (partEntry scenarioA).loadOrder ∧
    (partEntry scenarioA).moveTime = 100 := by
  decide

end ProducerConsumer
